import Mathlib

/-!
Verification of the schema-consistency and code-generation engine of the
pgmodeler repository (frontend/src/store/modelStore.ts, the PostgreSQL DDL
generator, and the crow-foot cardinality inference), via a shallow embedding
of the TypeScript source into Lean.

Conventions of the embedding:
* TypeScript objects become Lean structures; `undefined`/`null` fields become
  `Option`; JavaScript string falsiness (`!s`) is modelled as equality with "".
* The store's mutation operations are pure functions `ModelState → ... →
  ModelState`; zustand's `set` merge is modelled by rebuilding the record with
  the unchanged fields copied.
* `crypto.randomUUID()` produces opaque fresh identifiers; operations that
  allocate ids take them as explicit arguments (the code never inspects an id
  beyond `slice(0, 8)` for fallback constraint names).
* `structuredClone` is a deep copy of a plain JSON value, which on immutable
  Lean values is the identity.
-/

namespace PgModeler

/-- Column of a table, from `types/model` as used by the store:
`{id, name, type, nullable, defaultValue?, isPrimaryKey, isUnique, isIndexed?, comment?}`.
The optional `isIndexed` flag is falsy when absent, so it is a plain `Bool`. -/
structure Column where
  id : String
  name : String
  type : String
  nullable : Bool
  defaultValue : Option String
  isPrimaryKey : Bool
  isUnique : Bool
  isIndexed : Bool
  comment : Option String
deriving Repr, DecidableEq

/-- Foreign key
`{id, name, fromColumnId, toTableId, toColumnId, onDelete?, onUpdate?, startCardinality?, endCardinality?}`.
Cardinalities are kept as raw strings, as in the TypeScript union type. -/
structure ForeignKey where
  id : String
  name : String
  fromColumnId : String
  toTableId : String
  toColumnId : String
  onDelete : Option String
  onUpdate : Option String
  startCardinality : Option String
  endCardinality : Option String
deriving Repr, DecidableEq

/-- Canvas position of a table. JavaScript numbers are modelled as integers;
no claim depends on fractional coordinates. -/
structure TablePosition where
  x : Int
  y : Int
deriving Repr, DecidableEq

/-- Table `{id, schemaId, name, comment?, columns, foreignKeys, position?}`. -/
structure Table where
  id : String
  schemaId : String
  name : String
  comment : Option String
  columns : List Column
  foreignKeys : List ForeignKey
  position : Option TablePosition
deriving Repr, DecidableEq

/-- Schema `{id, name, comment?}`. -/
structure Schema where
  id : String
  name : String
  comment : Option String
deriving Repr, DecidableEq

/-- Custom (enum) type `{id, schemaId, name, kind, values}`. -/
structure CustomType where
  id : String
  schemaId : String
  name : String
  kind : String
  values : List String
deriving Repr, DecidableEq

/-- The root aggregate `{version, schemas, tables, types}`. -/
structure DbModel where
  version : Nat
  schemas : List Schema
  tables : List Table
  types : List CustomType
deriving Repr, DecidableEq

/-- An undo snapshot: the model plus the selection, as pushed by
`removeTable`/`removeColumn`. -/
structure ModelSnapshot where
  model : DbModel
  selectedSchemaId : Option String
  selectedTableId : Option String
  selectedColumnId : Option String
deriving Repr, DecidableEq

/-- The zustand store state that the mutation operations read and write
(`model`, the three selection pointers, `showErd`, `undoStack`). -/
structure ModelState where
  model : DbModel
  selectedSchemaId : Option String
  selectedTableId : Option String
  selectedColumnId : Option String
  showErd : Bool
  undoStack : List ModelSnapshot
deriving Repr, DecidableEq

/-- `MAX_UNDO_STACK = 20` in modelStore.ts. -/
def MAX_UNDO_STACK : Nat := 20

/-- `cloneModel` uses `structuredClone` (deep copy); on immutable values this
is the identity. -/
def cloneModel (model : DbModel) : DbModel := model

/-- `removeSchema(id)` from modelStore.ts: no-op when only one schema remains;
otherwise drops the schema and every table of it and repairs the selection. -/
def removeSchema (state : ModelState) (id : String) : ModelState :=
  if state.model.schemas.length ≤ 1 then state
  else
    let filteredSchemas := state.model.schemas.filter (fun schema => schema.id != id)
    let filteredTables := state.model.tables.filter (fun table => table.schemaId != id)
    let selectedSchemaId :=
      if state.selectedSchemaId == some id then
        (filteredSchemas.head?).map (fun schema => schema.id)
      else state.selectedSchemaId
    let selectedTableId :=
      match state.selectedTableId with
      | some tid =>
          if filteredTables.any (fun table => table.id == tid) then some tid
          else (filteredTables.head?).map (fun table => table.id)
      | none => none
    let selectedColumnId :=
      match state.selectedColumnId with
      | some cid =>
          if filteredTables.any (fun table => table.columns.any (fun column => column.id == cid)) then
            some cid
          else none
      | none => none
    { state with
      model := { state.model with schemas := filteredSchemas, tables := filteredTables }
      selectedSchemaId := selectedSchemaId
      selectedTableId := selectedTableId
      selectedColumnId := selectedColumnId }

/-- Letters and digits count as word characters when snake-casing. -/
def isWordChar (c : Char) : Bool := c.isAlpha || c.isDigit

/-- JavaScript `String.prototype.trim`: strip leading and trailing
whitespace. Modelled on the character list (the core `String.trim` walks
UTF-8 positions by well-founded recursion, which blocks kernel evaluation of
concrete runs). -/
def jsTrim (s : String) : String :=
  String.mk (((s.data.dropWhile Char.isWhitespace).reverse.dropWhile Char.isWhitespace).reverse)

/-- JavaScript `String.prototype.toLowerCase`, modelled on the character
list. -/
def jsToLower (s : String) : String := String.mk (s.data.map Char.toLower)

/-- Maximal alphanumeric runs of a character list (accumulator holds the
current run reversed). -/
def snakeGroupsAux : List Char → List Char → List (List Char)
  | cur, [] => if cur.isEmpty then [] else [cur.reverse]
  | cur, c :: cs =>
    if isWordChar c then snakeGroupsAux (c :: cur) cs
    else if cur.isEmpty then snakeGroupsAux [] cs
    else cur.reverse :: snakeGroupsAux [] cs

/-- Modelled from the spec: `toSnakeCase` lives in frontend/src/lib/naming.ts,
which is not among the provided sources. Per §4.1 it "normalizes arbitrary
text (including multi-word labels) into lower_snake_case tokens", is
idempotent, and never returns "" when the input has an alphanumeric
character. Modelled as: lower-case the text, split it into maximal
alphanumeric runs, join the runs with underscores. -/
def toSnakeCase (text : String) : String :=
  String.intercalate "_" ((snakeGroupsAux [] (jsToLower text).data).map (fun g => String.mk g))

/-- The numeric-suffix search of `ensureUniqueName` (modelStore.ts lines
75–81): try `base_2`, `base_3`, … until the candidate avoids the existing
names. The JavaScript `while` loop always terminates because the name set is
finite; it is modelled with explicit fuel, and a fuel of `|names| + 1`
suffices since the candidates are pairwise distinct. -/
def ensureUniqueNameAux (normalized : String) (names : List String) : Nat → Nat → String
  | 0, counter => normalized ++ "_" ++ toString counter
  | fuel + 1, counter =>
    let candidate := normalized ++ "_" ++ toString counter
    if names.contains candidate then ensureUniqueNameAux normalized names fuel (counter + 1)
    else candidate

/-- `ensureUniqueName(baseName, existingNames)` from modelStore.ts: trims the
base (an empty result becomes the placeholder "sem_nome") and resolves
collisions with numeric suffixes starting at 2. -/
def ensureUniqueName (baseName : String) (existingNames : List String) : String :=
  let trimmed := jsTrim baseName
  let normalized := if trimmed.length = 0 then "sem_nome" else trimmed
  if existingNames.contains normalized then
    ensureUniqueNameAux normalized existingNames (existingNames.length + 1) 2
  else normalized

/-- Modelled from the spec: `sanitizeConstraintName(candidate, fallback)` from
lib/naming.ts (not in src/). Per §4.1 it "trims/normalizes candidate text
into a valid constraint-name shape; if the result is empty or invalid,
returns `fallback`". Modelled via `toSnakeCase` with the fallback on empty. -/
def sanitizeConstraintName (candidate fallback : String) : String :=
  let s := toSnakeCase candidate
  if s.length = 0 then fallback else s

/-- Modelled from the spec: `ensureUniqueConstraintName(base, existingNames)`
from lib/naming.ts (not in src/). Per §4.1 it is the "same
collision-avoidance algorithm as `ensureUniqueName`, applied to constraint
names" (without the empty-name placeholder step, which `sanitizeConstraintName`
already performed). -/
def ensureUniqueConstraintName (base : String) (existingNames : List String) : String :=
  if existingNames.contains base then
    ensureUniqueNameAux base existingNames (existingNames.length + 1) 2
  else base

/-- Modelled from the spec: `buildConstraintName(parts, fallback)` from
lib/naming.ts (not in src/). Per §4.2 step 5 constraint names are "derived
from join-table + column + target-table labels" and sanitized with a
fallback; modelled as the snake-cased underscore-joined parts, or the
fallback when that is empty. -/
def buildConstraintName (parts : List String) (fallback : String) : String :=
  let s := toSnakeCase (String.intercalate "_" parts)
  if s.length = 0 then fallback else s

/-- `GENERIC_PK_NAME = 'id'` in modelStore.ts. -/
def GENERIC_PK_NAME : String := "id"

/-- `normalizeFkCardinality` from modelStore.ts: null/undefined stay absent,
the three many-ish values collapse to "many", anything else to "one". -/
def normalizeFkCardinality (value : Option String) : Option String :=
  match value with
  | none => none
  | some v =>
    if v == "many" || v == "one_or_many" || v == "zero_or_many" then some "many"
    else some "one"

/-- `createDefaultColumn(name, type)` from modelStore.ts; the generated
`crypto.randomUUID()` id is passed explicitly. -/
def createDefaultColumn (id name type : String) : Column :=
  { id := id, name := name, type := type, nullable := false, defaultValue := none,
    isPrimaryKey := name == GENERIC_PK_NAME, isUnique := name == GENERIC_PK_NAME,
    isIndexed := false, comment := none }

/-- `createDefaultTable(schemaId, name)` from modelStore.ts, fresh ids passed
explicitly. -/
def createDefaultTable (tableId columnId schemaId name : String) : Table :=
  { id := tableId, schemaId := schemaId, name := name, comment := none,
    columns := [createDefaultColumn columnId GENERIC_PK_NAME "uuid"],
    foreignKeys := [], position := none }

/-- `addTable(schemaId, name?, position?)` from modelStore.ts: throws
"Schema inexistente" when the schema id does not resolve, otherwise appends a
default table (name de-duplicated against sibling tables of the same schema)
and selects it. The thrown exception is modelled as `Except.error`. -/
def addTable (state : ModelState) (schemaId name : String) (position : Option TablePosition)
    (tableId columnId : String) : Except String (ModelState × String) :=
  if !(state.model.schemas.any (fun schema => schema.id == schemaId)) then
    Except.error "Schema inexistente"
  else
    let schemaTables := state.model.tables.filter (fun table => table.schemaId == schemaId)
    let tableName := ensureUniqueName name (schemaTables.map (fun table => table.name))
    let newTable0 := createDefaultTable tableId columnId schemaId tableName
    let newTable := match position with
      | some p => { newTable0 with position := some p }
      | none => newTable0
    Except.ok
      ({ state with
          model := { state.model with tables := state.model.tables ++ [newTable] }
          selectedTableId := some tableId
          selectedColumnId := none }, tableId)

/-- `addColumn(tableId, name?)` from modelStore.ts: throws "Tabela
inexistente" when the table id does not resolve, otherwise appends a default
text column with a de-duplicated name and selects it. -/
def addColumn (state : ModelState) (tableId name columnId : String) :
    Except String (ModelState × String) :=
  match state.model.tables.find? (fun table => table.id == tableId) with
  | none => Except.error "Tabela inexistente"
  | some table =>
    let columnName := ensureUniqueName name (table.columns.map (fun column => column.name))
    let newColumn := createDefaultColumn columnId columnName "text"
    Except.ok
      ({ state with
          model := { state.model with
            tables := state.model.tables.map (fun item =>
              if item.id == tableId then { item with columns := item.columns ++ [newColumn] }
              else item) }
          selectedColumnId := some columnId }, columnId)

/-- `addForeignKey(tableId, fk)` from modelStore.ts: maps over the tables,
attaching the new foreign key (sanitized, de-duplicated name; normalized
cardinalities) to the matching table. The operation performs no validation of
`tableId` and never throws; it always returns the fresh id. It is given the
same `Except` result type as `addTable`/`addColumn` so the absence of an
error outcome is part of its embedded type — every result is `Except.ok`. -/
def addForeignKey (state : ModelState) (tableId : String) (fk : ForeignKey) (fkId : String) :
    Except String (ModelState × String) :=
  let tables := state.model.tables.map (fun table =>
    if table.id != tableId then table
    else
      let fallback := "fk_" ++ fkId.take 8
      let currentNames := table.foreignKeys.map (fun item => item.name)
      let base := sanitizeConstraintName fk.name fallback
      let uniqueName := ensureUniqueConstraintName base currentNames
      let normalizedStart := normalizeFkCardinality fk.startCardinality
      let normalizedEnd := normalizeFkCardinality fk.endCardinality
      let fkWithId : ForeignKey := { fk with
        id := fkId
        name := uniqueName
        startCardinality := match normalizedStart with
          | some v => some v
          | none => fk.startCardinality
        endCardinality := match normalizedEnd with
          | some v => some v
          | none => fk.endCardinality }
      { table with foreignKeys := table.foreignKeys ++ [fkWithId] })
  Except.ok ({ state with model := { state.model with tables := tables } }, fkId)

/-- `removeTable(id)` from modelStore.ts: pushes an undo snapshot, removes the
table, drops every foreign key elsewhere targeting it, repairs the
selection, and caps the undo stack at `MAX_UNDO_STACK`. -/
def removeTable (state : ModelState) (id : String) : ModelState :=
  let snapshot : ModelSnapshot :=
    { model := cloneModel state.model
      selectedSchemaId := state.selectedSchemaId
      selectedTableId := state.selectedTableId
      selectedColumnId := state.selectedColumnId }
  let tables := state.model.tables.filter (fun table => table.id != id)
  let sanitizedTables := tables.map (fun table =>
    { table with foreignKeys := table.foreignKeys.filter (fun fk => fk.toTableId != id) })
  let selectedTableId :=
    if state.selectedTableId == some id then (sanitizedTables.head?).map (fun t => t.id)
    else state.selectedTableId
  let keepColumn := match state.selectedColumnId with
    | some cid => sanitizedTables.any (fun t => t.columns.any (fun c => c.id == cid))
    | none => false
  let selectedColumnId :=
    if keepColumn then state.selectedColumnId
    else
      let tableOpt := match sanitizedTables.find? (fun item => some item.id == selectedTableId) with
        | some t => some t
        | none => sanitizedTables.head?
      match tableOpt with
      | some t => (t.columns.head?).map (fun c => c.id)
      | none => none
  { state with
    model := { state.model with tables := sanitizedTables }
    selectedTableId := selectedTableId
    selectedColumnId := selectedColumnId
    undoStack := (snapshot :: state.undoStack).take MAX_UNDO_STACK }

/-- `removeColumn(tableId, columnId)` from modelStore.ts: pushes an undo
snapshot; on every *other* table drops foreign keys whose `toColumnId` is the
removed column, while on the owning table it drops the column and the foreign
keys whose `fromColumnId` is the removed column. The JavaScript mutable
`nextSelectedColumnId` (nulled inside the owning-table branch, then checked
against the updated tables) is sequentialized. -/
def removeColumn (state : ModelState) (tableId columnId : String) : ModelState :=
  let snapshot : ModelSnapshot :=
    { model := cloneModel state.model
      selectedSchemaId := state.selectedSchemaId
      selectedTableId := state.selectedTableId
      selectedColumnId := state.selectedColumnId }
  let updatedTables := state.model.tables.map (fun table =>
    if table.id != tableId then
      { table with foreignKeys := table.foreignKeys.filter (fun fk => fk.toColumnId != columnId) }
    else
      { table with
        columns := table.columns.filter (fun column => column.id != columnId)
        foreignKeys := table.foreignKeys.filter (fun fk => fk.fromColumnId != columnId) })
  let afterBranch :=
    if state.selectedColumnId == some columnId
        && state.model.tables.any (fun table => table.id == tableId) then none
    else state.selectedColumnId
  let nextSelectedColumnId :=
    match afterBranch with
    | some cid =>
        if updatedTables.any (fun table => table.columns.any (fun column => column.id == cid)) then
          some cid
        else none
    | none => none
  { state with
    model := { state.model with tables := updatedTables }
    selectedColumnId := nextSelectedColumnId
    undoStack := (snapshot :: state.undoStack).take MAX_UNDO_STACK }

/-- `undo()` from modelStore.ts: pops the most recent snapshot if any and
restores its model and selection. -/
def undo (state : ModelState) : ModelState :=
  match state.undoStack with
  | [] => state
  | snapshot :: rest =>
      { state with
        model := cloneModel snapshot.model
        selectedSchemaId := snapshot.selectedSchemaId
        selectedTableId := snapshot.selectedTableId
        selectedColumnId := snapshot.selectedColumnId
        undoStack := rest }

/-- Binary relationship cardinality, `Kind` in CrowFootEdge.tsx. -/
inductive Kind where
  | one
  | many
deriving Repr, DecidableEq

/-- `computeKindsFromModel` from CrowFootEdge.tsx: destructures only
`fkIsUnique` and `refIsUnique` from its parameter object. The result pair is
(start, end). -/
def computeKindsFromModel (fkNullable fkIsUnique refIsUnique : Bool) : Kind × Kind :=
  let start := if fkIsUnique then Kind.one else Kind.many
  let endKind := if refIsUnique then Kind.one else Kind.many
  (start, endKind)

end PgModeler

namespace PgModeler

/-- A concrete single-schema state used to witness the last-schema guard. -/
def lastSchemaState : ModelState :=
  { model :=
      { version := 1
        schemas := [{ id := "s1", name := "public", comment := none }]
        tables := []
        types := [] }
    selectedSchemaId := some "s1"
    selectedTableId := none
    selectedColumnId := none
    showErd := true
    undoStack := [] }

end PgModeler

namespace PgModeler

/-- A plain data column (no primary key, no uniqueness, no index). -/
def plainColumn (id name type : String) : Column :=
  { id := id, name := name, type := type, nullable := false, defaultValue := none,
    isPrimaryKey := false, isUnique := false, isIndexed := false, comment := none }

/-- A single-column primary-key column. -/
def pkColumn (id name type : String) : Column :=
  { id := id, name := name, type := type, nullable := false, defaultValue := none,
    isPrimaryKey := true, isUnique := true, isIndexed := false, comment := none }

/-- A bare foreign key with the given endpoints. -/
def plainFk (id name fromColumnId toTableId toColumnId : String) : ForeignKey :=
  { id := id, name := name, fromColumnId := fromColumnId, toTableId := toTableId,
    toColumnId := toColumnId, onDelete := none, onUpdate := none,
    startCardinality := none, endCardinality := none }

/-- Failing input for C1: table t1 owns columns c1 and c2 and a
self-referencing foreign key f1 from c1 to (t1, c2). -/
def selfFkState : ModelState :=
  { model :=
      { version := 1
        schemas := [{ id := "s1", name := "public", comment := none }]
        tables :=
          [{ id := "t1", schemaId := "s1", name := "t", comment := none,
             columns := [plainColumn "c1" "a" "uuid", plainColumn "c2" "b" "uuid"],
             foreignKeys := [plainFk "f1" "t_a_fkey" "c1" "t1" "c2"],
             position := none }]
        types := [] }
    selectedSchemaId := some "s1"
    selectedTableId := none
    selectedColumnId := none
    showErd := true
    undoStack := [] }

/-- Failing input for C2: schema s2 holds table tA; table tB in schema s1
has a foreign key fB targeting tA. -/
def crossSchemaState : ModelState :=
  { model :=
      { version := 1
        schemas := [{ id := "s1", name := "public", comment := none },
                    { id := "s2", name := "other", comment := none }]
        tables :=
          [{ id := "tA", schemaId := "s2", name := "a", comment := none,
             columns := [pkColumn "ca" "id" "uuid"],
             foreignKeys := [], position := none },
           { id := "tB", schemaId := "s1", name := "b", comment := none,
             columns := [pkColumn "cb" "id" "uuid", plainColumn "cb2" "a_id" "uuid"],
             foreignKeys := [plainFk "fB" "b_a_id_fkey" "cb2" "tA" "ca"],
             position := none }]
        types := [] }
    selectedSchemaId := some "s1"
    selectedTableId := none
    selectedColumnId := none
    showErd := true
    undoStack := [] }

/-- Concrete input for C3's counterexample: a model with a single table t1. -/
def singleTableState : ModelState :=
  { model :=
      { version := 1
        schemas := [{ id := "s1", name := "public", comment := none }]
        tables :=
          [{ id := "t1", schemaId := "s1", name := "t", comment := none,
             columns := [pkColumn "c1" "id" "uuid"],
             foreignKeys := [], position := none }]
        types := [] }
    selectedSchemaId := some "s1"
    selectedTableId := some "t1"
    selectedColumnId := none
    showErd := true
    undoStack := [] }

/-- A foreign-key payload whose target table id does not exist anywhere. -/
def strayFkInput : ForeignKey :=
  plainFk "ignored" "stray_fkey" "c1" "missing_table" "missing_column"

/-- `pickReferenceColumn(table, preferredColumnId?, exclude)` from
modelStore.ts: prefer the given column, else the first primary key, else the
first unique column, else the first column at all, always skipping excluded
ids. -/
def pickReferenceColumn (table : Table) (preferredColumnId : Option String)
    (exclude : List String) : Option Column :=
  let preferred := match preferredColumnId with
    | some pid => table.columns.find? (fun c : Column => c.id == pid && !exclude.contains c.id)
    | none => none
  match preferred with
  | some c => some c
  | none =>
    match table.columns.find? (fun c : Column => c.isPrimaryKey && !exclude.contains c.id) with
    | some c => some c
    | none =>
      match table.columns.find? (fun c : Column => c.isUnique && !exclude.contains c.id) with
      | some c => some c
      | none => table.columns.find? (fun c : Column => !exclude.contains c.id)

/-- `buildJoinColumnName(tableName, referencedColumnName, existingNames)` from
modelStore.ts; the JavaScript mutates the name set, so the updated set is
returned alongside the chosen name. -/
def buildJoinColumnName (tableName referencedColumnName : String)
    (existingNames : List String) : String × List String :=
  let baseRaw := toSnakeCase tableName ++ "_" ++ toSnakeCase referencedColumnName
  let fallback := toSnakeCase tableName ++ "_" ++ GENERIC_PK_NAME
  let base := if (jsTrim baseRaw).length > 0 then baseRaw else fallback
  let unique := ensureUniqueName base existingNames
  (unique, existingNames ++ [unique])

/-- The five `createId()` results consumed by one run of
`convertForeignKeyToManyToMany`, passed explicitly. -/
structure FreshIds where
  joinTableId : String
  leftColumnId : String
  rightColumnId : String
  leftFkId : String
  rightFkId : String
deriving Repr, DecidableEq

/-- `convertForeignKeyToManyToMany(tableId, fkId)` from modelStore.ts lines
660–905. Every early `return state` of the JavaScript becomes `(state,
false)`; the final success path returns the rebuilt state and `true`.
`findIndex` + element access is modelled as `findIdx?` + `get?` (the `get?`
`none` branches are unreachable because `findIdx?` yields in-bounds indexes);
`localeCompare` is modelled as code-point comparison; canvas coordinates are
integers. -/
def convertForeignKeyToManyToMany (state : ModelState) (tableId fkId : String)
    (ids : FreshIds) : ModelState × Bool :=
  match state.model.tables.findIdx? (fun t => t.id == tableId) with
  | none => (state, false)
  | some tableIndex =>
    match state.model.tables.get? tableIndex with
    | none => (state, false)
    | some table =>
      match table.foreignKeys.find? (fun k => k.id == fkId) with
      | none => (state, false)
      | some fk =>
        match table.columns.find? (fun c => c.id == fk.fromColumnId) with
        | none => (state, false)
        | some sourceColumn =>
          match state.model.tables.findIdx? (fun c => c.id == fk.toTableId) with
          | none => (state, false)
          | some targetTableIndex =>
            match state.model.tables.get? targetTableIndex with
            | none => (state, false)
            | some targetTable =>
              match targetTable.columns.find? (fun c => c.id == fk.toColumnId) with
              | none => (state, false)
              | some targetColumn =>
                let shouldRemoveSourceColumn := !sourceColumn.isPrimaryKey
                let excluded := if shouldRemoveSourceColumn then [sourceColumn.id] else []
                match pickReferenceColumn table (some sourceColumn.id) excluded,
                      pickReferenceColumn targetTable (some targetColumn.id) [] with
                | some sourceReference, some targetReference =>
                  let schemaId := table.schemaId
                  let schemaTables :=
                    state.model.tables.filter (fun c => c.schemaId == schemaId)
                  let orderedNames :=
                    if compare table.name targetTable.name == Ordering.gt then
                      [targetTable.name, table.name]
                    else [table.name, targetTable.name]
                  let baseNameRaw := String.intercalate "_" orderedNames
                  let fallbackName :=
                    toSnakeCase table.name ++ "_" ++ toSnakeCase targetTable.name
                  let baseNameSanitized0 := toSnakeCase baseNameRaw
                  let baseNameSanitized :=
                    if baseNameSanitized0 == "" then fallbackName else baseNameSanitized0
                  let baseName :=
                    if baseNameSanitized == "" then "relacionamento" else baseNameSanitized
                  let joinTableName :=
                    ensureUniqueName baseName (schemaTables.map (fun item => item.name))
                  let joinTableId := ids.joinTableId
                  let leftPick :=
                    buildJoinColumnName ("fk_" ++ table.name) sourceReference.name []
                  let rightPick :=
                    buildJoinColumnName ("fk_" ++ targetTable.name) targetReference.name
                      leftPick.2
                  let leftColumn : Column :=
                    { id := ids.leftColumnId, name := leftPick.1,
                      type := sourceReference.type, nullable := false, defaultValue := none,
                      isPrimaryKey := true, isUnique := false, isIndexed := false,
                      comment := none }
                  let rightColumn : Column :=
                    { id := ids.rightColumnId, name := rightPick.1,
                      type := targetReference.type, nullable := false, defaultValue := none,
                      isPrimaryKey := true, isUnique := false, isIndexed := false,
                      comment := none }
                  let leftFkNameBase :=
                    buildConstraintName [joinTableName, leftColumn.name, table.name, "fk"]
                      ("fk_" ++ ids.leftFkId.take 8)
                  let leftFkName := ensureUniqueConstraintName leftFkNameBase []
                  let rightFkNameBase :=
                    buildConstraintName [joinTableName, rightColumn.name, targetTable.name, "fk"]
                      ("fk_" ++ ids.rightFkId.take 8)
                  let rightFkName := ensureUniqueConstraintName rightFkNameBase [leftFkName]
                  let leftFk : ForeignKey :=
                    { id := ids.leftFkId, name := leftFkName,
                      fromColumnId := leftColumn.id, toTableId := table.id,
                      toColumnId := sourceReference.id, onDelete := none, onUpdate := none,
                      startCardinality := some "many", endCardinality := some "one" }
                  let rightFk : ForeignKey :=
                    { id := ids.rightFkId, name := rightFkName,
                      fromColumnId := rightColumn.id, toTableId := targetTable.id,
                      toColumnId := targetReference.id, onDelete := none, onUpdate := none,
                      startCardinality := some "many", endCardinality := some "one" }
                  let layoutSpacing : Int := 320
                  let laneY : Int :=
                    match table.position with
                    | some p => p.y
                    | none =>
                      match targetTable.position with
                      | some p => p.y
                      | none => 0
                  let positions : TablePosition × TablePosition × TablePosition :=
                    match table.position, targetTable.position with
                    | some sp, some tp =>
                      let distance : Int := (tp.x - sp.x).natAbs
                      let centerX := (sp.x + tp.x) / 2
                      if distance < layoutSpacing * 2 then
                        let sp2 : TablePosition := { x := centerX - layoutSpacing, y := laneY }
                        let tp2 : TablePosition := { x := centerX + layoutSpacing, y := laneY }
                        (sp2, tp2, { x := (sp2.x + tp2.x) / 2, y := laneY })
                      else
                        let sp2 : TablePosition := { x := sp.x, y := laneY }
                        let tp2 : TablePosition := { x := tp.x, y := laneY }
                        (sp2, tp2, { x := (sp2.x + tp2.x) / 2, y := laneY })
                    | some sp, none =>
                      let sp2 : TablePosition := { x := sp.x, y := laneY }
                      let jp : TablePosition := { x := sp2.x + layoutSpacing, y := laneY }
                      (sp2, { x := jp.x + layoutSpacing, y := laneY }, jp)
                    | none, some tp =>
                      let tp2 : TablePosition := { x := tp.x, y := laneY }
                      let jp : TablePosition := { x := tp2.x - layoutSpacing, y := laneY }
                      ({ x := jp.x - layoutSpacing, y := laneY }, tp2, jp)
                    | none, none =>
                      ({ x := -layoutSpacing, y := laneY },
                       { x := layoutSpacing, y := laneY },
                       { x := 0, y := laneY })
                  let sourcePosition := positions.1
                  let targetPosition := positions.2.1
                  let joinPosition := positions.2.2
                  let sourceColumnId := sourceColumn.id
                  let sanitizedTables := state.model.tables.enum.map (fun p =>
                    let index := p.1
                    let candidate := p.2
                    if index = tableIndex then
                      { candidate with
                        columns :=
                          if shouldRemoveSourceColumn then
                            candidate.columns.filter (fun column => column.id != sourceColumnId)
                          else candidate.columns
                        foreignKeys := candidate.foreignKeys.filter (fun item =>
                          item.id != fk.id
                            && (if shouldRemoveSourceColumn then
                                  item.fromColumnId != sourceColumnId
                                else true))
                        position := some sourcePosition }
                    else if index = targetTableIndex then
                      { candidate with
                        foreignKeys := candidate.foreignKeys.filter (fun item =>
                          if shouldRemoveSourceColumn then item.toColumnId != sourceColumnId
                          else true)
                        position := some targetPosition }
                    else
                      { candidate with
                        foreignKeys :=
                          if shouldRemoveSourceColumn then
                            candidate.foreignKeys.filter (fun item =>
                              item.toColumnId != sourceColumnId)
                          else candidate.foreignKeys })
                  let joinTable : Table :=
                    { id := joinTableId, schemaId := schemaId, name := joinTableName,
                      comment := none, columns := [leftColumn, rightColumn],
                      foreignKeys := [leftFk, rightFk], position := some joinPosition }
                  let nextTables :=
                    sanitizedTables.take (tableIndex + 1)
                      ++ joinTable :: sanitizedTables.drop (tableIndex + 1)
                  ({ state with
                      model := { state.model with tables := nextTables }
                      selectedTableId := some joinTableId
                      selectedColumnId := some leftColumn.id }, true)
                | _, _ => (state, false)

/-- The conjunction of `convertForeignKeyToManyToMany`'s preconditions, in
the order the claim lists them: the table, its foreign key, the source
column, the target table and the target column all resolve, and a usable
reference column exists on both sides. -/
def convertPreconditionOk (state : ModelState) (tableId fkId : String) : Bool :=
  match state.model.tables.find? (fun t => t.id == tableId) with
  | none => false
  | some table =>
    match table.foreignKeys.find? (fun k => k.id == fkId) with
    | none => false
    | some fk =>
      match table.columns.find? (fun c => c.id == fk.fromColumnId) with
      | none => false
      | some sourceColumn =>
        match state.model.tables.find? (fun t => t.id == fk.toTableId) with
        | none => false
        | some targetTable =>
          match targetTable.columns.find? (fun c => c.id == fk.toColumnId) with
          | none => false
          | some targetColumn =>
            let excluded := if !sourceColumn.isPrimaryKey then [sourceColumn.id] else []
            (pickReferenceColumn table (some sourceColumn.id) excluded).isSome
              && (pickReferenceColumn targetTable (some targetColumn.id) []).isSome

/-- The C5 scenario model: table customers (id tc) with unique primary-key
column id (cc1); table orders (id to) with primary-key column id (oc1) and
plain foreign-key column customer_id (oc2); foreign key f1 on orders from
customer_id to customers.id. -/
def mmState : ModelState :=
  { model :=
      { version := 1
        schemas := [{ id := "s1", name := "public", comment := none }]
        tables :=
          [{ id := "tc", schemaId := "s1", name := "customers", comment := none,
             columns := [pkColumn "cc1" "id" "uuid"],
             foreignKeys := [], position := none },
           { id := "to", schemaId := "s1", name := "orders", comment := none,
             columns := [pkColumn "oc1" "id" "uuid", plainColumn "oc2" "customer_id" "uuid"],
             foreignKeys := [plainFk "f1" "orders_customer_id_fkey" "oc2" "tc" "cc1"],
             position := none }]
        types := [] }
    selectedSchemaId := some "s1"
    selectedTableId := some "to"
    selectedColumnId := none
    showErd := true
    undoStack := [] }

/-- Fresh ids fed to the C5 conversion run. -/
def mmIds : FreshIds :=
  { joinTableId := "j1", leftColumnId := "jc1", rightColumnId := "jc2",
    leftFkId := "jf1", rightFkId := "jf2" }

/-- The result of converting foreign key f1 of orders in the C5 scenario. -/
def mmResult : ModelState × Bool :=
  convertForeignKeyToManyToMany mmState "to" "f1" mmIds

/-- JavaScript `replaceAll` with a single-character pattern, modelled on the
character list. -/
def replaceAllChar (s : String) (c : Char) (r : String) : String :=
  String.mk (s.data.foldr (fun ch acc => if ch == c then r.data ++ acc else ch :: acc) [])

/-- `quoteIdent` from the DDL generator: double-quote an identifier, doubling
embedded double quotes. -/
def quoteIdent (value : String) : String :=
  "\"" ++ replaceAllChar value '"' "\"\"" ++ "\""

/-- `qualify(schema, name)` from the DDL generator. -/
def qualify (schema name : String) : String :=
  quoteIdent schema ++ "." ++ quoteIdent name

/-- `buildColumnDefinition` from the DDL generator: quoted name, type,
`NOT NULL` when not nullable, `DEFAULT <trimmed>` when a non-blank default is
set (JavaScript truthiness: an absent or empty default is skipped). -/
def buildColumnDefinition (column : Column) : String :=
  let parts := [quoteIdent column.name, column.type]
  let parts := if !column.nullable then parts ++ ["NOT NULL"] else parts
  let parts :=
    match column.defaultValue with
    | some dv =>
        if dv != "" && (jsTrim dv).length > 0 then parts ++ ["DEFAULT " ++ jsTrim dv]
        else parts
    | none => parts
  String.intercalate " " parts

/-- `buildForeignKeyClause` from the DDL generator: `none` when the source
column, target table or target column does not resolve; otherwise the
CONSTRAINT/REFERENCES clause with optional ON DELETE / ON UPDATE actions
(JavaScript truthiness: an absent or empty action is skipped). -/
def buildForeignKeyClause (fk : ForeignKey) (table : Table)
    (getTableById : String → Option Table) (getSchemaName : String → String) :
    Option String :=
  match table.columns.find? (fun column => column.id == fk.fromColumnId),
        getTableById fk.toTableId with
  | some fromColumn, some targetTable =>
    let targetSchema := getSchemaName targetTable.schemaId
    match targetTable.columns.find? (fun column => column.id == fk.toColumnId) with
    | none => none
    | some targetColumn =>
      let clauses :=
        ["CONSTRAINT " ++ quoteIdent fk.name ++ " FOREIGN KEY (" ++
            quoteIdent fromColumn.name ++ ")",
         "REFERENCES " ++ qualify targetSchema targetTable.name ++ " (" ++
            quoteIdent targetColumn.name ++ ")"]
      let clauses :=
        match fk.onDelete with
        | some action => if action == "" then clauses else clauses ++ ["ON DELETE " ++ action]
        | none => clauses
      let clauses :=
        match fk.onUpdate with
        | some action => if action == "" then clauses else clauses ++ ["ON UPDATE " ++ action]
        | none => clauses
      some (String.intercalate " " clauses)
  | _, _ => none

/-- `buildTableStatement` from the DDL generator: column definitions, a
single PRIMARY KEY clause, one UNIQUE clause per unique non-primary-key
column, the resolvable foreign-key clauses, rendered inline when short
(at most 3 clauses and at most 120 characters) else multi-line, followed by
COMMENT ON statements (JavaScript truthiness: empty comments are skipped). -/
def buildTableStatement (table : Table) (schemaName : String)
    (getTableById : String → Option Table) (getSchemaName : String → String) : String :=
  let columnDefinitions := table.columns.map buildColumnDefinition
  let pkColumns :=
    (table.columns.filter (fun column => column.isPrimaryKey)).map
      (fun column => quoteIdent column.name)
  let columnDefinitions :=
    if pkColumns.length > 0 then
      columnDefinitions ++ ["PRIMARY KEY (" ++ String.intercalate ", " pkColumns ++ ")"]
    else columnDefinitions
  let uniqueColumns :=
    (table.columns.filter (fun column => column.isUnique && !column.isPrimaryKey)).map
      (fun column => quoteIdent column.name)
  let columnDefinitions :=
    columnDefinitions ++ uniqueColumns.map (fun columnName => "UNIQUE (" ++ columnName ++ ")")
  let columnDefinitions :=
    columnDefinitions ++ table.foreignKeys.filterMap
      (fun fk => buildForeignKeyClause fk table getTableById getSchemaName)
  let multilineTableDefinition :=
    "CREATE TABLE " ++ qualify schemaName table.name ++ " (\n  " ++
      String.intercalate ",\n  " columnDefinitions ++ "\n);"
  let inlineDefinitions := String.intercalate ", " columnDefinitions
  let prefersInline :=
    columnDefinitions.length ≤ 3 && inlineDefinitions.length ≤ 120
  let tableDefinition :=
    if prefersInline then
      "CREATE TABLE " ++ qualify schemaName table.name ++ " (" ++ inlineDefinitions ++ ");"
    else multilineTableDefinition
  let comments :=
    match table.comment with
    | some cm =>
        if cm == "" then []
        else ["COMMENT ON TABLE " ++ qualify schemaName table.name ++ " IS '" ++
          replaceAllChar cm '\'' "''" ++ "';"]
    | none => []
  let comments := comments ++ table.columns.filterMap (fun column =>
    match column.comment with
    | some cm =>
        if cm == "" then none
        else some ("COMMENT ON COLUMN " ++ qualify schemaName table.name ++ "." ++
          quoteIdent column.name ++ " IS '" ++ replaceAllChar cm '\'' "''" ++ "';")
    | none => none)
  String.intercalate "\n" (tableDefinition :: comments)

/-- Whether `pre` is a prefix of `s` (JavaScript `startsWith`), modelled on
the character lists. -/
def strStartsWith (s pre : String) : Bool :=
  pre.data.isPrefixOf s.data

/-- Decimal value of a digit character, the left inverse of `Nat.digitChar`
on digits below 10 (proof support for the name de-duplication lemmas). -/
def decDigitVal (c : Char) : Nat :=
  if c == '0' then 0 else if c == '1' then 1 else if c == '2' then 2
  else if c == '3' then 3 else if c == '4' then 4 else if c == '5' then 5
  else if c == '6' then 6 else if c == '7' then 7 else if c == '8' then 8
  else if c == '9' then 9 else 0

/-- Decimal value of a digit string (proof support). -/
def decValue (l : List Char) : Nat :=
  l.foldl (fun a c => a * 10 + decDigitVal c) 0

/-- The fold inside `buildIndexesForTable`: for each explicitly indexed,
non-primary-key, non-unique column, synthesize `idx_`-prefixed snake-cased
`<table>_<column>_idx`, de-duplicate it against the names generated so far
(the JavaScript `usedNames` set), and emit the CREATE INDEX statement. The
pair carries (used names, statements). -/
def buildIndexesFoldStep (table : Table) (schemaName : String)
    (acc : List String × List String) (column : Column) : List String × List String :=
  if column.isIndexed && !column.isPrimaryKey && !column.isUnique then
    let baseRaw := table.name ++ "_" ++ column.name ++ "_idx"
    let sanitized0 := toSnakeCase baseRaw
    let sanitized := if sanitized0 == "" then "idx_" ++ column.id.take 8 else sanitized0
    let base := if strStartsWith sanitized "idx_" then sanitized else "idx_" ++ sanitized
    let indexName := ensureUniqueConstraintName base acc.1
    (acc.1 ++ [indexName],
     acc.2 ++ ["CREATE INDEX " ++ quoteIdent indexName ++ " ON " ++
       qualify schemaName table.name ++ " (" ++ quoteIdent column.name ++ ");"])
  else acc

/-- The (used names, statements) pair after folding `buildIndexesFoldStep`
over the table's columns. -/
def buildIndexesStep (table : Table) (schemaName : String) :
    List String × List String :=
  table.columns.foldl (buildIndexesFoldStep table schemaName) ([], [])

/-- `buildIndexesForTable` from the DDL generator: the emitted CREATE INDEX
statements. -/
def buildIndexesForTable (table : Table) (schemaName : String) : List String :=
  (buildIndexesStep table schemaName).2

/-- JavaScript `localeCompare`, modelled as code-point comparison (the claims
only involve plain lowercase ASCII names, where the two agree; the sign of
the returned number is what the generator consumes). -/
def localeCompare (a b : String) : Ordering := compare a b

/-- Insert `x` into `l` before the first element strictly greater than it —
the generator's `findIndex`/`splice` insertion, and the step of a stable
insertion sort matching JavaScript's stable `Array.sort`. -/
def insertSortedBy {α : Type} (cmp : α → α → Ordering) (x : α) : List α → List α
  | [] => [x]
  | y :: rest =>
      if cmp x y == Ordering.lt then x :: y :: rest else y :: insertSortedBy cmp x rest

/-- Stable insertion sort with a three-way comparator, modelling JavaScript's
stable `Array.prototype.sort`. -/
def sortBy {α : Type} (cmp : α → α → Ordering) (l : List α) : List α :=
  l.foldl (fun acc x => insertSortedBy cmp x acc) []

/-- First-occurrence de-duplication, the iteration order of a JavaScript
`Map`/`Set` keyed by these strings. -/
def dedupKeepFirst (l : List String) : List String :=
  l.foldl (fun acc x => if acc.contains x then acc else acc ++ [x]) []

/-- `tableById.get` where `tableById = new Map(tables.map(t => [t.id, t]))`:
for a duplicated id the last entry wins. -/
def tableByIdGet (tables : List Table) (id : String) : Option Table :=
  (tables.filter (fun t => t.id == id)).getLast?

/-- JavaScript `Set.add`: append unless already present (insertion order). -/
def setAdd (l : List String) (x : String) : List String :=
  if l.contains x then l else l ++ [x]

/-- The dependency set the generator computes for one table: the target ids
of its foreign keys, skipping falsy (empty) targets, self-references and
targets absent from the model, de-duplicated in insertion order. -/
def tableDependencies (tables : List Table) (table : Table) : List String :=
  table.foreignKeys.foldl (fun deps fk =>
    if fk.toTableId == "" || fk.toTableId == table.id then deps
    else if !(tables.any (fun t => t.id == fk.toTableId)) then deps
    else setAdd deps fk.toTableId) []

/-- The generator's `dependentsMap.get(targetId)`: ids of the tables holding
at least one qualifying foreign key to `targetId`, in traversal order
(a missing map entry and an empty list behave identically in the loop). -/
def tableDependents (tables : List Table) (targetId : String) : List String :=
  tables.foldl (fun acc t =>
    if (tableDependencies tables t).contains targetId then setAdd acc t.id else acc) []

/-- `compareBySchemaAndName` from the DDL generator: compare two table ids by
(schema name, table name); ids that do not resolve compare equal. -/
def compareBySchemaAndName (tables : List Table) (getSchemaName : String → String)
    (leftId rightId : String) : Ordering :=
  match tableByIdGet tables leftId, tableByIdGet tables rightId with
  | some leftTable, some rightTable =>
    match localeCompare (getSchemaName leftTable.schemaId) (getSchemaName rightTable.schemaId)
        with
    | Ordering.eq => localeCompare leftTable.name rightTable.name
    | o => o
  | _, _ => Ordering.eq

/-- First-match association-list lookup — `Map.get` for the dependency map
(its keys are distinct table ids, so first and last match coincide). -/
def mapGetA : List (String × List String) → String → Option (List String)
  | [], _ => none
  | e :: m, key => if e.1 == key then some e.2 else mapGetA m key

/-- `Map.set` on the association list: replace the first binding in place,
appending when the key is absent (a `Map` holds each key once). -/
def mapSet : List (String × List String) → String → List String →
    List (String × List String)
  | [], key, value => [(key, value)]
  | e :: m, key, value =>
      if e.1 == key then (key, value) :: m else e :: mapSet m key value

/-- The `dependents.forEach` body of the generator's Kahn loop: for each
dependent of the just-emitted table, delete it from the dependent's remaining
dependencies; once none remain, insert the dependent into the ready queue in
sorted position. Returns (dependency map, queue). -/
def processOneDependent (cmp : String → String → Ordering) (currentId : String)
    (acc : List (String × List String) × List String) (dependentId : String) :
    List (String × List String) × List String :=
  match mapGetA acc.1 dependentId with
  | none => acc
  | some deps =>
    let deps2 := deps.filter (fun d => d != currentId)
    let rem2 := mapSet acc.1 dependentId deps2
    if deps2.isEmpty then (rem2, insertSortedBy cmp dependentId acc.2)
    else (rem2, acc.2)

/-- The whole `dependents.forEach` traversal. -/
def processDependents (cmp : String → String → Ordering) (currentId : String)
    (dependents : List String) (rem : List (String × List String)) (queue : List String) :
    List (String × List String) × List String :=
  dependents.foldl (processOneDependent cmp currentId) (rem, queue)

/-- The generator's `while (readyQueue.length > 0)` loop: dequeue the head;
skip it when already visited; otherwise mark it visited, emit its table
(a miss in `tableById` would be skipped, but every enqueued id is a table
id) and relax its dependents. The JavaScript loop terminates because every
table is enqueued finitely often; the recursion carries explicit fuel, and
`topologicallySortTables` passes fuel exceeding the loop's step count. -/
def kahnLoop (tables : List Table) (cmp : String → String → Ordering) :
    Nat → List String → List String → List Table → List (String × List String) →
    List Table × List String
  | 0, _queue, visited, ordered, _rem => (ordered, visited)
  | fuel + 1, queue, visited, ordered, rem =>
    match queue with
    | [] => (ordered, visited)
    | currentId :: rest =>
      if visited.contains currentId then
        kahnLoop tables cmp fuel rest visited ordered rem
      else
        let visited2 := visited ++ [currentId]
        match tableByIdGet tables currentId with
        | none => kahnLoop tables cmp fuel rest visited2 ordered rem
        | some currentTable =>
          let ordered2 := ordered ++ [currentTable]
          let pd := processDependents cmp currentId (tableDependents tables currentId) rem rest
          kahnLoop tables cmp fuel pd.2 visited2 ordered2 pd.1

/-- `topologicallySortTables` from the DDL generator: order-preserving Kahn
traversal seeded with the zero-dependency tables sorted by (schema name,
table name); tables left unprocessed by a dependency cycle are appended at
the end in sorted order. -/
def topologicallySortTables (tables : List Table) (getSchemaName : String → String) :
    List Table :=
  let cmp := compareBySchemaAndName tables getSchemaName
  let dependencyMap := tables.map (fun t => (t.id, tableDependencies tables t))
  let readyQueue :=
    sortBy cmp ((tables.filter (fun t => (tableDependencies tables t).isEmpty)).map
      (fun t => t.id))
  let fuel :=
    readyQueue.length + ((tables.map
      (fun t => 1 + (tableDependents tables t.id).length)).sum) + 1
  let result := kahnLoop tables cmp fuel readyQueue [] [] dependencyMap
  let ordered := result.1
  let visited := result.2
  if ordered.length != tables.length then
    ordered ++ sortBy (fun a b => cmp a.id b.id) (tables.filter (fun t => !visited.contains t.id))
  else ordered

/-- `schemaById.get(schemaId) ?? 'public'` of the generator: the schema-name
lookup (a `Map` built from entries keeps the last value for a duplicated
id). -/
def schemaNameOf (model : DbModel) (schemaId : String) : String :=
  match (model.schemas.filter (fun schema => schema.id == schemaId)).getLast? with
  | some schema => schema.name
  | none => "public"

/-- `generatePostgresSql` from the DDL generator: CREATE SCHEMA statements
for every non-public schema sorted by name, CREATE TYPE statements grouped
by owning schema in first-appearance order (schemas that do not resolve, or
resolve to a falsy name, are skipped), then per table in topological order
the CREATE TABLE statement followed by its CREATE INDEX statements, all
joined by newlines. -/
def generatePostgresSql (model : DbModel) : String :=
  let getSchemaName := schemaNameOf model
  let getTableById := tableByIdGet model.tables
  let sortedSchemas := sortBy (fun a b => localeCompare a.name b.name) model.schemas
  let schemaStatements :=
    (sortedSchemas.filter (fun schema => schema.name != "public")).map
      (fun schema => "CREATE SCHEMA IF NOT EXISTS " ++ quoteIdent schema.name ++ ";")
  let typeSchemaIds := dedupKeepFirst (model.types.map (fun t => t.schemaId))
  let typeStatements := (typeSchemaIds.map (fun schemaId =>
    match (model.schemas.filter (fun schema => schema.id == schemaId)).getLast? with
    | none => []
    | some schema =>
      if schema.name == "" then []
      else
        (model.types.filter (fun t => t.schemaId == schemaId)).filterMap (fun customType =>
          if customType.kind == "enum" then
            some ("CREATE TYPE " ++ qualify schema.name customType.name ++ " AS ENUM (" ++
              String.intercalate ", " (customType.values.map
                (fun v => "'" ++ replaceAllChar v '\'' "''" ++ "'")) ++ ");")
          else none))).join
  let orderedTables := topologicallySortTables model.tables getSchemaName
  let tableStatements := (orderedTables.map (fun table =>
    buildTableStatement table (getSchemaName table.schemaId) getTableById getSchemaName
      :: buildIndexesForTable table (getSchemaName table.schemaId))).join
  String.intercalate "\n" (schemaStatements ++ typeStatements ++ tableStatements)

/-- Concrete table for C7: users(id primary key, email indexed and neither
primary key nor unique). -/
def usersIndexTable : Table :=
  { id := "t1", schemaId := "s1", name := "users", comment := none,
    columns :=
      [pkColumn "c1" "id" "uuid",
       { id := "c2", name := "email", type := "text", nullable := false,
         defaultValue := none, isPrimaryKey := false, isUnique := false,
         isIndexed := true, comment := none }],
    foreignKeys := [], position := none }

/-- Concrete model for C4's example: tables a, b, c in schema public where b
references a and c references b, listed in reverse order so the ordering is
the sort's doing. -/
def abcModel : DbModel :=
  { version := 1
    schemas := [{ id := "s1", name := "public", comment := none }]
    tables :=
      [{ id := "tc3", schemaId := "s1", name := "c", comment := none,
         columns := [pkColumn "cc" "id" "uuid", plainColumn "cc2" "b_id" "uuid"],
         foreignKeys := [plainFk "fc" "c_b_id_fkey" "cc2" "tb2" "cb"],
         position := none },
       { id := "tb2", schemaId := "s1", name := "b", comment := none,
         columns := [pkColumn "cb" "id" "uuid", plainColumn "cb2" "a_id" "uuid"],
         foreignKeys := [plainFk "fb" "b_a_id_fkey" "cb2" "ta1" "ca"],
         position := none },
       { id := "ta1", schemaId := "s1", name := "a", comment := none,
         columns := [pkColumn "ca" "id" "uuid"],
         foreignKeys := [], position := none }]
    types := [] }

/-- The ids of the tables, in order. -/
def tableIds (tables : List Table) : List String :=
  tables.map (fun t => t.id)

/-- The dependency list keyed by table id, as the loop's dependency map sees
it (lookup through `tableById`). -/
def origDepsId (tables : List Table) (id : String) : List String :=
  match tableByIdGet tables id with
  | some t => tableDependencies tables t
  | none => []

/-- Termination measure of the Kahn loop: the queue length plus, for every
not-yet-visited table, one plus its dependent count (proof support). -/
def kahnMeasure (tables : List Table) (queue visited : List String) : Nat :=
  queue.length + ((tables.filter (fun t => !visited.contains t.id)).map
    (fun t => 1 + (tableDependents tables t.id).length)).sum

/-- The emitted prefix respects dependencies: each emitted table's
dependencies appear among the earlier emitted ids (proof support). -/
def OrderOk (tables : List Table) (ordered : List Table) : Prop :=
  ∀ (i : Nat) (hi : i < ordered.length),
    ∀ d ∈ tableDependencies tables (ordered.get ⟨i, hi⟩),
      d ∈ (ordered.take i).map (fun t => t.id)

/-- The Kahn loop invariant (proof support): queue and visited hold table
ids, visited ids are distinct and mirror the emitted tables, the dependency
map holds each table's not-yet-visited dependencies, every enqueued table
has all dependencies visited, the emitted prefix respects dependencies,
emitted tables are model tables, and every table is visited, enqueued or
still blocked. -/
def KahnInv (tables : List Table) (queue visited : List String) (ordered : List Table)
    (rem : List (String × List String)) : Prop :=
  (∀ q ∈ queue, q ∈ tableIds tables)
  ∧ (∀ v ∈ visited, v ∈ tableIds tables)
  ∧ visited.Nodup
  ∧ ordered.map (fun t => t.id) = visited
  ∧ (∀ u ∈ ordered, u ∈ tables)
  ∧ (∀ id ∈ tableIds tables, mapGetA rem id
        = some ((origDepsId tables id).filter (fun d => !visited.contains d)))
  ∧ (∀ q ∈ queue, ∀ d ∈ origDepsId tables q, d ∈ visited)
  ∧ OrderOk tables ordered
  ∧ (∀ id ∈ tableIds tables,
      id ∈ visited ∨ id ∈ queue
        ∨ (origDepsId tables id).filter (fun d => !visited.contains d) ≠ [])

end PgModeler

/-- A list maps to itself when the function fixes every element. -/
theorem PgModeler.list_map_self {α : Type} (f : α → α) :
    ∀ (l : List α), (∀ x ∈ l, f x = x) → l.map f = l
  | [], _ => rfl
  | x :: xs, h => by
      simp only [List.map_cons, List.cons.injEq]
      exact ⟨h x (List.mem_cons_self x xs), PgModeler.list_map_self f xs fun y hy =>
        h y (List.mem_cons_of_mem x hy)⟩

/-- `findIdx?` starting at offset `i` finds index `j` exactly when `find?`
finds the same (first) element, sitting at position `j - i`. -/
theorem PgModeler.findIdx?_spec {α : Type} (p : α → Bool) :
    ∀ (l : List α) (i j : Nat), l.findIdx? p i = some j →
      i ≤ j ∧ ∃ x, l.find? p = some x ∧ l.get? (j - i) = some x := by
  intro l
  induction l with
  | nil => intro i j h; simp [List.findIdx?_nil] at h
  | cons a l ih =>
    intro i j h
    rw [List.findIdx?_cons] at h
    by_cases hp : p a = true
    · rw [if_pos hp] at h
      have hij : i = j := by injection h
      subst hij
      exact ⟨Nat.le_refl i, a, List.find?_cons_of_pos l hp, by simp⟩
    · rw [if_neg hp] at h
      obtain ⟨hij, x, hfind, hget⟩ := ih (i + 1) j h
      refine ⟨by omega, x, ?_, ?_⟩
      · rw [List.find?_cons_of_neg l (by simpa using hp)]
        exact hfind
      · have hshift : j - i = (j - (i + 1)) + 1 := by omega
        rw [hshift]
        simpa using hget

/-- Claim C6: whenever one of the preconditions of
`convertForeignKeyToManyToMany` fails — the table, the foreign key, its
source column, the target table or the target column does not resolve, or
no usable reference column can be chosen on one side — the operation
returns `false` and the state is exactly the one passed in: no partial
mutation is observable. -/
theorem PgModeler.convert_precondition_failure (state : PgModeler.ModelState)
    (tableId fkId : String) (ids : PgModeler.FreshIds)
    (h : PgModeler.convertPreconditionOk state tableId fkId = false) :
    PgModeler.convertForeignKeyToManyToMany state tableId fkId ids = (state, false) := by
  unfold PgModeler.convertPreconditionOk at h
  unfold PgModeler.convertForeignKeyToManyToMany
  cases hT : state.model.tables.findIdx? (fun t => t.id == tableId) with
  | none => rfl
  | some tableIndex =>
    obtain ⟨-, table, hfindT, hgetT⟩ :=
      PgModeler.findIdx?_spec (fun t => t.id == tableId) state.model.tables 0 tableIndex hT
    rw [Nat.sub_zero] at hgetT
    simp only [hfindT] at h
    simp only [hgetT]
    cases hF : table.foreignKeys.find? (fun k => k.id == fkId) with
    | none => rfl
    | some fk =>
      simp only [hF] at h
      dsimp only
      cases hS : table.columns.find? (fun c => c.id == fk.fromColumnId) with
      | none => rfl
      | some sourceColumn =>
        simp only [hS] at h
        dsimp only
        cases hTT : state.model.tables.findIdx? (fun c => c.id == fk.toTableId) with
        | none => rfl
        | some targetTableIndex =>
          obtain ⟨-, targetTable, hfindTT, hgetTT⟩ :=
            PgModeler.findIdx?_spec (fun c => c.id == fk.toTableId) state.model.tables 0
              targetTableIndex hTT
          rw [Nat.sub_zero] at hgetTT
          simp only [hfindTT] at h
          simp only [hgetTT]
          cases hTC : targetTable.columns.find? (fun c => c.id == fk.toColumnId) with
          | none => rfl
          | some targetColumn =>
            simp only [hTC] at h
            dsimp only
            rw [Bool.and_eq_false_iff] at h
            cases hsrc : PgModeler.pickReferenceColumn table (some sourceColumn.id)
                (if !sourceColumn.isPrimaryKey then [sourceColumn.id] else []) with
            | none => rfl
            | some sourceReference =>
              cases htgt : PgModeler.pickReferenceColumn targetTable (some targetColumn.id) []
                  with
              | none => rfl
              | some targetReference =>
                exfalso
                rcases h with h | h
                · rw [hsrc] at h
                  simp at h
                · rw [htgt] at h
                  simp at h

/-- Witness for C6: a concrete call whose foreign-key id does not resolve
returns `false` and leaves the state untouched. -/
theorem PgModeler.convert_precondition_failure_witness :
    PgModeler.convertPreconditionOk PgModeler.singleTableState "t1" "zzz" = false
    ∧ PgModeler.convertForeignKeyToManyToMany PgModeler.singleTableState "t1" "zzz"
        PgModeler.mmIds = (PgModeler.singleTableState, false) :=
  ⟨by decide,
    PgModeler.convert_precondition_failure PgModeler.singleTableState "t1" "zzz"
      PgModeler.mmIds (by decide)⟩

/-- Claim C5: in the orders/customers scenario the conversion returns true;
orders loses the customer_id column and its foreign key; and a join table
named customers_orders appears with exactly two columns, both primary keys,
and exactly two foreign keys, one many→one into orders and one many→one into
customers. -/
theorem PgModeler.convert_orders_customers_scenario :
    PgModeler.mmResult.2 = true
    ∧ ((PgModeler.mmResult.1.model.tables.find? (fun t => t.id == "to")).map
        (fun t => t.columns.all (fun c => c.name != "customer_id")
          && t.foreignKeys.all (fun k => k.id != "f1"))) = some true
    ∧ ((PgModeler.mmResult.1.model.tables.find? (fun t => t.name == "customers_orders")).map
        (fun t => (t.columns.length == 2)
          && t.columns.all (fun c => c.isPrimaryKey)
          && (t.foreignKeys.length == 2)
          && t.foreignKeys.any (fun k => k.toTableId == "to"
                && k.startCardinality == some "many" && k.endCardinality == some "one")
          && t.foreignKeys.any (fun k => k.toTableId == "tc"
                && k.startCardinality == some "many" && k.endCardinality == some "one")))
        = some true := by
  exact ⟨rfl, rfl, rfl⟩

/-- Claim C9: for every model containing exactly one schema, calling
`removeSchema` on any id leaves the entire state unchanged — schema count and
id, tables, types and selection are untouched. -/
theorem PgModeler.removeSchema_last_schema_noop (state : PgModeler.ModelState) (id : String)
    (h : state.model.schemas.length = 1) :
    PgModeler.removeSchema state id = state := by
  unfold PgModeler.removeSchema
  rw [if_pos (by omega)]

/-- Witness for C9: the guard holds on a concrete one-schema state and the
operation leaves it untouched. -/
theorem PgModeler.removeSchema_last_schema_noop_witness :
    PgModeler.lastSchemaState.model.schemas.length = 1 ∧
      PgModeler.removeSchema PgModeler.lastSchemaState "s1" = PgModeler.lastSchemaState :=
  ⟨rfl, PgModeler.removeSchema_last_schema_noop PgModeler.lastSchemaState "s1" rfl⟩

/-- Claim C1 (code bug evaluation): removing column c2 of table t1 removes
the column from every table, yet the owning table's self-referencing foreign
key with `toColumnId = c2` survives — the owning-table branch of
`removeColumn` filters only on `fromColumnId`, so a dangling reference
remains, contrary to the claim and the spec's invariant 5. -/
theorem PgModeler.removeColumn_keeps_dangling_self_fk :
    ((PgModeler.removeColumn PgModeler.selfFkState "t1" "c2").model.tables.all
        (fun t => t.columns.all (fun c => c.id != "c2"))) = true
    ∧ ((PgModeler.removeColumn PgModeler.selfFkState "t1" "c2").model.tables.any
        (fun t => t.foreignKeys.any (fun fk => fk.toColumnId == "c2"))) = true := by
  decide

/-- Claim C2 (code bug evaluation): removing schema s2 removes its table tA,
yet table tB (in the surviving schema) keeps its foreign key targeting tA —
`removeSchema` performs no foreign-key cleanup at all, contrary to the claim
and the spec's invariants 3 and 6. -/
theorem PgModeler.removeSchema_keeps_dangling_fk :
    ((PgModeler.removeSchema PgModeler.crossSchemaState "s2").model.tables.all
        (fun t => t.id != "tA")) = true
    ∧ ((PgModeler.removeSchema PgModeler.crossSchemaState "s2").model.tables.any
        (fun t => t.foreignKeys.any (fun fk => fk.toTableId == "tA"))) = true := by
  decide

/-- Claim C3 counterexample: `addForeignKey` invoked with a table id that
does not exist does not report any failure — it completes normally,
returning the freshly allocated id with the model unchanged, so the claim
that every such invalid-reference mutation "reports a failure to the caller
as an exception or error value" is false on the code. -/
theorem PgModeler.addForeignKey_missing_table_silently_succeeds :
    PgModeler.addForeignKey PgModeler.singleTableState "missing_table"
        PgModeler.strayFkInput "fk9"
      = Except.ok (PgModeler.singleTableState, "fk9") := by
  rfl

/-- Claim C3 as amended: `addTable` with a nonexistent schema id and
`addColumn` with a nonexistent table id throw an exception (modelled as
`Except.error`) and so leave the model unchanged, while `addForeignKey` with
a nonexistent table id leaves the model unchanged but completes without
reporting any failure, returning the fresh id as if it had succeeded. -/
theorem PgModeler.invalid_reference_behaviour (state : PgModeler.ModelState)
    (schemaId tableId name : String) (pos : Option PgModeler.TablePosition)
    (tid cid fkId : String) (fk : PgModeler.ForeignKey)
    (hs : ∀ s ∈ state.model.schemas, s.id ≠ schemaId)
    (ht : ∀ t ∈ state.model.tables, t.id ≠ tableId) :
    PgModeler.addTable state schemaId name pos tid cid = Except.error "Schema inexistente"
    ∧ PgModeler.addColumn state tableId name cid = Except.error "Tabela inexistente"
    ∧ PgModeler.addForeignKey state tableId fk fkId = Except.ok (state, fkId) := by
  refine ⟨?_, ?_, ?_⟩
  · unfold PgModeler.addTable
    have : state.model.schemas.any (fun schema => schema.id == schemaId) = false := by
      simp only [List.any_eq_false, beq_iff_eq]
      exact hs
    rw [this]
    rfl
  · unfold PgModeler.addColumn
    have : state.model.tables.find? (fun table => table.id == tableId) = none := by
      rw [List.find?_eq_none]
      intro t htmem
      simp only [beq_iff_eq]
      exact ht t htmem
    rw [this]
  · unfold PgModeler.addForeignKey
    have hmap :
        state.model.tables.map (fun table =>
          if table.id != tableId then table
          else
            let fallback := "fk_" ++ fkId.take 8
            let currentNames := table.foreignKeys.map (fun item => item.name)
            let base := PgModeler.sanitizeConstraintName fk.name fallback
            let uniqueName := PgModeler.ensureUniqueConstraintName base currentNames
            let normalizedStart := PgModeler.normalizeFkCardinality fk.startCardinality
            let normalizedEnd := PgModeler.normalizeFkCardinality fk.endCardinality
            let fkWithId : PgModeler.ForeignKey := { fk with
              id := fkId
              name := uniqueName
              startCardinality := match normalizedStart with
                | some v => some v
                | none => fk.startCardinality
              endCardinality := match normalizedEnd with
                | some v => some v
                | none => fk.endCardinality }
            { table with foreignKeys := table.foreignKeys ++ [fkWithId] })
          = state.model.tables := by
      apply PgModeler.list_map_self
      intro t htmem
      have : (t.id != tableId) = true := by
        simp only [bne_iff_ne, ne_eq]
        exact ht t htmem
      simp only [this, if_true]
    rw [hmap]

/-- Witness for the amended C3 theorem at a concrete state whose schema and
table ids avoid "nope". -/
theorem PgModeler.invalid_reference_behaviour_witness :
    PgModeler.addTable PgModeler.singleTableState "nope" "tabela" none "t9" "c9"
        = Except.error "Schema inexistente"
    ∧ PgModeler.addColumn PgModeler.singleTableState "nope" "coluna" "c9"
        = Except.error "Tabela inexistente"
    ∧ PgModeler.addForeignKey PgModeler.singleTableState "nope" PgModeler.strayFkInput "fk9"
        = Except.ok (PgModeler.singleTableState, "fk9") :=
  PgModeler.invalid_reference_behaviour PgModeler.singleTableState "nope" "nope" "tabela"
    none "t9" "c9" "fk9" PgModeler.strayFkInput (by decide) (by decide)

/-- Claim C8: `removeTable` pushes a pre-mutation snapshot, so an immediately
following `undo` restores the model and the three selection pointers to the
values held before the removal. -/
theorem PgModeler.undo_removeTable_restores (state : PgModeler.ModelState) (id : String)
    (h : ∃ t ∈ state.model.tables, t.id = id) :
    (PgModeler.undo (PgModeler.removeTable state id)).model = state.model
    ∧ (PgModeler.undo (PgModeler.removeTable state id)).selectedSchemaId = state.selectedSchemaId
    ∧ (PgModeler.undo (PgModeler.removeTable state id)).selectedTableId = state.selectedTableId
    ∧ (PgModeler.undo (PgModeler.removeTable state id)).selectedColumnId
        = state.selectedColumnId := by
  clear h
  unfold PgModeler.removeTable PgModeler.undo PgModeler.cloneModel PgModeler.MAX_UNDO_STACK
  simp only [List.take_succ_cons]
  exact ⟨trivial, trivial, trivial, trivial⟩

/-- Witness for C8 at a concrete state holding table t1. -/
theorem PgModeler.undo_removeTable_restores_witness :
    (PgModeler.undo (PgModeler.removeTable PgModeler.singleTableState "t1")).model
        = PgModeler.singleTableState.model
    ∧ (PgModeler.undo (PgModeler.removeTable PgModeler.singleTableState "t1")).selectedSchemaId
        = PgModeler.singleTableState.selectedSchemaId
    ∧ (PgModeler.undo (PgModeler.removeTable PgModeler.singleTableState "t1")).selectedTableId
        = PgModeler.singleTableState.selectedTableId
    ∧ (PgModeler.undo (PgModeler.removeTable PgModeler.singleTableState "t1")).selectedColumnId
        = PgModeler.singleTableState.selectedColumnId :=
  PgModeler.undo_removeTable_restores PgModeler.singleTableState "t1"
    ⟨PgModeler.singleTableState.model.tables.head (by decide), by decide, by decide⟩

/-- Claim C10: `computeKindsFromModel` is independent of the nullability of
the foreign-key column — for any two values of `fkNullable` the results agree
— and returns start = one exactly when `fkIsUnique`, end = one exactly when
`refIsUnique`. -/
theorem PgModeler.computeKindsFromModel_ignores_nullability :
    ∀ (n1 n2 fkIsUnique refIsUnique : Bool),
      PgModeler.computeKindsFromModel n1 fkIsUnique refIsUnique
          = PgModeler.computeKindsFromModel n2 fkIsUnique refIsUnique
        ∧ (PgModeler.computeKindsFromModel n1 fkIsUnique refIsUnique).1
          = (if fkIsUnique then PgModeler.Kind.one else PgModeler.Kind.many)
        ∧ (PgModeler.computeKindsFromModel n1 fkIsUnique refIsUnique).2
          = (if refIsUnique then PgModeler.Kind.one else PgModeler.Kind.many) := by
  decide

/-- `decDigitVal` inverts `Nat.digitChar` on digits. -/
theorem PgModeler.decDigitVal_digitChar (d : Nat) (h : d < 10) :
    PgModeler.decDigitVal (Nat.digitChar d) = d := by
  interval_cases d <;> rfl

/-- Folding the digit-value step over an appended digit. -/
theorem PgModeler.decValue_append (l : List Char) (c : Char) :
    PgModeler.decValue (l ++ [c]) = 10 * PgModeler.decValue l + PgModeler.decDigitVal c := by
  unfold PgModeler.decValue
  rw [List.foldl_append]
  simp [Nat.mul_comm]

/-- `Nat.toDigitsCore` prepends to its accumulator. -/
theorem PgModeler.toDigitsCore_append (b : Nat) :
    ∀ (fuel n : Nat) (acc : List Char),
      Nat.toDigitsCore b fuel n acc = Nat.toDigitsCore b fuel n [] ++ acc := by
  intro fuel
  induction fuel with
  | zero => intro n acc; rfl
  | succ fuel ih =>
    intro n acc
    simp only [Nat.toDigitsCore]
    by_cases h : n / b = 0
    · simp [h]
    · rw [if_neg h, if_neg h, ih (n / b) (Nat.digitChar (n % b) :: acc),
        ih (n / b) [Nat.digitChar (n % b)]]
      simp

/-- With enough fuel, the decimal value of the digits of `n` is `n`. -/
theorem PgModeler.decValue_toDigitsCore :
    ∀ (n fuel : Nat), n < fuel →
      PgModeler.decValue (Nat.toDigitsCore 10 fuel n []) = n := by
  intro n
  induction n using Nat.strong_induction_on with
  | _ n ih =>
    intro fuel hf
    match fuel, hf with
    | fuel + 1, hf =>
      simp only [Nat.toDigitsCore]
      by_cases h : n / 10 = 0
      · rw [if_pos h]
        have hn : n < 10 := by
          by_contra hge
          push_neg at hge
          have h2 : 10 / 10 ≤ n / 10 := Nat.div_le_div_right hge
          rw [h] at h2
          norm_num at h2
        have h10 : n % 10 = n := Nat.mod_eq_of_lt hn
        show PgModeler.decValue [Nat.digitChar (n % 10)] = n
        unfold PgModeler.decValue
        simp only [List.foldl_cons, List.foldl_nil, Nat.zero_mul, Nat.zero_add]
        rw [PgModeler.decDigitVal_digitChar (n % 10) (Nat.mod_lt _ (by norm_num)), h10]
      · rw [if_neg h]
        rw [PgModeler.toDigitsCore_append, PgModeler.decValue_append]
        have hpos : 0 < n := by
          rcases Nat.eq_zero_or_pos n with h0 | h0
          · subst h0; simp at h
          · exact h0
        have hd : n / 10 < n := Nat.div_lt_self hpos (by norm_num)
        rw [ih (n / 10) hd fuel (by omega),
          PgModeler.decDigitVal_digitChar (n % 10) (Nat.mod_lt _ (by norm_num))]
        omega

/-- Decimal string representations of distinct naturals differ. -/
theorem PgModeler.natRepr_injective : ∀ (m n : Nat), Nat.repr m = Nat.repr n → m = n := by
  intro m n h
  have hdata : (Nat.toDigits 10 m) = (Nat.toDigits 10 n) := congrArg String.data h
  have hm := PgModeler.decValue_toDigitsCore m (m + 1) (Nat.lt_succ_self m)
  have hn := PgModeler.decValue_toDigitsCore n (n + 1) (Nat.lt_succ_self n)
  unfold Nat.toDigits at hdata
  rw [← hm, ← hn, hdata]

/-- Appending to a fixed string is injective. -/
theorem PgModeler.string_append_right_injective (a : String) {b c : String}
    (h : a ++ b = a ++ c) : b = c := by
  apply String.ext
  have hd : (a ++ b).data = (a ++ c).data := congrArg String.data h
  rw [String.data_append, String.data_append] at hd
  exact List.append_cancel_left hd

/-- The numeric-suffix candidates are pairwise distinct. -/
theorem PgModeler.candidate_injective (base : String) :
    Function.Injective (fun k : Nat => base ++ "_" ++ toString k) := by
  intro k1 k2 h
  exact PgModeler.natRepr_injective k1 k2
    (PgModeler.string_append_right_injective (base ++ "_") h)

/-- At most `|names|` of the suffix candidates can collide with `names`. -/
theorem PgModeler.filter_contains_length_le (names : List String) (base : String)
    (counter fuel : Nat) :
    ((List.range' counter fuel).filter
      (fun j => names.contains (base ++ "_" ++ toString j))).length ≤ names.length := by
  have hnodup : ((List.range' counter fuel).filter
      (fun j => names.contains (base ++ "_" ++ toString j))).Nodup :=
    (List.nodup_range' counter fuel).filter _
  have hmapnodup : (((List.range' counter fuel).filter
      (fun j => names.contains (base ++ "_" ++ toString j))).map
        (fun k : Nat => base ++ "_" ++ toString k)).Nodup :=
    hnodup.map (PgModeler.candidate_injective base)
  have hsub : (((List.range' counter fuel).filter
      (fun j => names.contains (base ++ "_" ++ toString j))).map
        (fun k : Nat => base ++ "_" ++ toString k)) ⊆ names := by
    intro x hx
    obtain ⟨j, hj, rfl⟩ := List.mem_map.mp hx
    have hPj := List.of_mem_filter hj
    simpa using hPj
  have hlen := (hmapnodup.subperm hsub).length_le
  simpa using hlen

/-- When fewer candidates collide than there is fuel, the suffix search
returns a name avoiding `names`. -/
theorem PgModeler.ensureUniqueNameAux_not_mem (normalized : String) (names : List String) :
    ∀ (fuel counter : Nat),
      ((List.range' counter fuel).filter
        (fun j => names.contains (normalized ++ "_" ++ toString j))).length < fuel →
      PgModeler.ensureUniqueNameAux normalized names fuel counter ∉ names := by
  intro fuel
  induction fuel with
  | zero => intro counter h; omega
  | succ fuel ih =>
    intro counter h
    unfold PgModeler.ensureUniqueNameAux
    by_cases hc : names.contains (normalized ++ "_" ++ toString counter)
    · simp only [hc, if_true]
      apply ih
      rw [List.range'_succ] at h
      simp only [List.filter_cons, hc, if_true, List.length_cons] at h
      omega
    · simp only [hc, Bool.false_eq_true, if_false]
      intro hmem
      exact hc (by simpa using hmem)

/-- The de-duplicated constraint name avoids every existing name. -/
theorem PgModeler.ensureUniqueConstraintName_not_mem (base : String) (names : List String) :
    PgModeler.ensureUniqueConstraintName base names ∉ names := by
  unfold PgModeler.ensureUniqueConstraintName
  by_cases hc : names.contains base
  · simp only [hc, if_true]
    apply PgModeler.ensureUniqueNameAux_not_mem
    have := PgModeler.filter_contains_length_le names base 2 (names.length + 1)
    omega
  · simp only [hc, Bool.false_eq_true, if_false]
    intro hmem
    exact hc (by simpa using hmem)

/-- The suffix search only ever appends to the base name. -/
theorem PgModeler.ensureUniqueNameAux_shape (normalized : String) (names : List String) :
    ∀ (fuel counter : Nat), ∃ k : Nat,
      PgModeler.ensureUniqueNameAux normalized names fuel counter
        = normalized ++ "_" ++ toString k := by
  intro fuel
  induction fuel with
  | zero => intro counter; exact ⟨counter, rfl⟩
  | succ fuel ih =>
    intro counter
    unfold PgModeler.ensureUniqueNameAux
    by_cases hc : names.contains (normalized ++ "_" ++ toString counter)
    · simp only [hc, if_true]; exact ih (counter + 1)
    · simp only [hc, Bool.false_eq_true, if_false]; exact ⟨counter, rfl⟩

/-- `startsWith` is stable under appending on the right. -/
theorem PgModeler.strStartsWith_append (base suffix pre : String)
    (h : PgModeler.strStartsWith base pre = true) :
    PgModeler.strStartsWith (base ++ suffix) pre = true := by
  unfold PgModeler.strStartsWith at h ⊢
  rw [List.isPrefixOf_iff_prefix] at h ⊢
  rw [String.data_append]
  exact h.trans (List.prefix_append base.data suffix.data)

/-- De-duplication preserves any prefix of the base name. -/
theorem PgModeler.ensureUniqueConstraintName_prefix (base : String) (names : List String)
    (pre : String) (h : PgModeler.strStartsWith base pre = true) :
    PgModeler.strStartsWith (PgModeler.ensureUniqueConstraintName base names) pre = true := by
  unfold PgModeler.ensureUniqueConstraintName
  by_cases hc : names.contains base
  · simp only [hc, if_true]
    obtain ⟨k, hk⟩ := PgModeler.ensureUniqueNameAux_shape base names (names.length + 1) 2
    rw [hk, String.append_assoc]
    exact PgModeler.strStartsWith_append base ("_" ++ toString k) pre h
  · simp only [hc, Bool.false_eq_true, if_false]
    exact h

/-- Appending one fresh element keeps a list duplicate-free. -/
theorem PgModeler.nodup_append_fresh (l : List String) (x : String)
    (h : l.Nodup) (hx : x ∉ l) : (l ++ [x]).Nodup := by
  rw [List.nodup_append]
  refine ⟨h, List.nodup_singleton x, ?_⟩
  intro y hy hy1
  rw [List.mem_singleton] at hy1
  subst hy1
  exact hx hy

/-- Fold invariant of the index-name generation: the used-name list stays
duplicate-free, every generated name carries the `idx_` prefix, and one
statement is emitted per name. -/
theorem PgModeler.buildIndexes_fold_invariant (table : PgModeler.Table) (schemaName : String) :
    ∀ (cols : List PgModeler.Column) (acc : List String × List String),
      acc.1.Nodup → (∀ n ∈ acc.1, PgModeler.strStartsWith n "idx_" = true) →
      acc.2.length = acc.1.length →
      (cols.foldl (PgModeler.buildIndexesFoldStep table schemaName) acc).1.Nodup
      ∧ (∀ n ∈ (cols.foldl (PgModeler.buildIndexesFoldStep table schemaName) acc).1,
          PgModeler.strStartsWith n "idx_" = true)
      ∧ (cols.foldl (PgModeler.buildIndexesFoldStep table schemaName) acc).2.length
          = (cols.foldl (PgModeler.buildIndexesFoldStep table schemaName) acc).1.length := by
  intro cols
  induction cols with
  | nil => intro acc h1 h2 h3; exact ⟨h1, h2, h3⟩
  | cons column cols ih =>
    intro acc h1 h2 h3
    rw [List.foldl_cons]
    by_cases hcol : (column.isIndexed && !column.isPrimaryKey && !column.isUnique) = true
    · have hstep : PgModeler.buildIndexesFoldStep table schemaName acc column =
        (acc.1 ++ [PgModeler.ensureUniqueConstraintName
            (if PgModeler.strStartsWith
                (if PgModeler.toSnakeCase (table.name ++ "_" ++ column.name ++ "_idx") == ""
                 then "idx_" ++ column.id.take 8
                 else PgModeler.toSnakeCase (table.name ++ "_" ++ column.name ++ "_idx"))
                "idx_"
             then
               (if PgModeler.toSnakeCase (table.name ++ "_" ++ column.name ++ "_idx") == ""
                then "idx_" ++ column.id.take 8
                else PgModeler.toSnakeCase (table.name ++ "_" ++ column.name ++ "_idx"))
             else "idx_" ++
               (if PgModeler.toSnakeCase (table.name ++ "_" ++ column.name ++ "_idx") == ""
                then "idx_" ++ column.id.take 8
                else PgModeler.toSnakeCase (table.name ++ "_" ++ column.name ++ "_idx")))
            acc.1],
         acc.2 ++ ["CREATE INDEX " ++ PgModeler.quoteIdent
             (PgModeler.ensureUniqueConstraintName
               (if PgModeler.strStartsWith
                   (if PgModeler.toSnakeCase (table.name ++ "_" ++ column.name ++ "_idx") == ""
                    then "idx_" ++ column.id.take 8
                    else PgModeler.toSnakeCase (table.name ++ "_" ++ column.name ++ "_idx"))
                   "idx_"
                then
                  (if PgModeler.toSnakeCase (table.name ++ "_" ++ column.name ++ "_idx") == ""
                   then "idx_" ++ column.id.take 8
                   else PgModeler.toSnakeCase (table.name ++ "_" ++ column.name ++ "_idx"))
                else "idx_" ++
                  (if PgModeler.toSnakeCase (table.name ++ "_" ++ column.name ++ "_idx") == ""
                   then "idx_" ++ column.id.take 8
                   else PgModeler.toSnakeCase (table.name ++ "_" ++ column.name ++ "_idx")))
               acc.1) ++ " ON " ++
           PgModeler.qualify schemaName table.name ++ " (" ++
           PgModeler.quoteIdent column.name ++ ");"]) := by
        unfold PgModeler.buildIndexesFoldStep
        rw [if_pos hcol]
      rw [hstep]
      apply ih
      · exact PgModeler.nodup_append_fresh acc.1 _ h1
          (PgModeler.ensureUniqueConstraintName_not_mem _ acc.1)
      · intro n hn
        rw [List.mem_append] at hn
        rcases hn with hn | hn
        · exact h2 n hn
        · rw [List.mem_singleton] at hn
          subst hn
          apply PgModeler.ensureUniqueConstraintName_prefix
          by_cases hsw : PgModeler.strStartsWith
              (if PgModeler.toSnakeCase (table.name ++ "_" ++ column.name ++ "_idx") == ""
               then "idx_" ++ column.id.take 8
               else PgModeler.toSnakeCase (table.name ++ "_" ++ column.name ++ "_idx"))
              "idx_" = true
          · rw [if_pos hsw]; exact hsw
          · rw [if_neg hsw]
            exact PgModeler.strStartsWith_append "idx_" _ "idx_" (by decide)
      · simp only [List.length_append, List.length_singleton]
        omega
    · have hstep : PgModeler.buildIndexesFoldStep table schemaName acc column = acc := by
        unfold PgModeler.buildIndexesFoldStep
        rw [if_neg hcol]
      rw [hstep]
      exact ih acc h1 h2 h3

/-- Claim C7 counterexample: for table users with indexed non-primary-key
non-unique column email, the generated index name is "idx_users_email_idx",
not the claimed "idx_users_email" — the code snake-cases
`<table>_<column>_idx` and only then guarantees an `idx_` prefix. -/
theorem PgModeler.buildIndexes_users_email_name :
    PgModeler.buildIndexesForTable PgModeler.usersIndexTable "public"
      = ["CREATE INDEX \"idx_users_email_idx\" ON \"public\".\"users\" (\"email\");"]
    ∧ "idx_users_email_idx" ≠ "idx_users_email" := by
  exact ⟨rfl, by decide⟩

/-- Claim C7 as amended: for every indexed, non-primary-key, non-unique
column the generator emits a CREATE INDEX statement whose name is the
snake-cased `<table>_<column>_idx` prefixed with `idx_` when not already
present (so `idx_users_email_idx` for users.email), de-duplicated within the
table: the generated names are pairwise distinct, all carry the `idx_`
prefix, and one statement is emitted per generated name. -/
theorem PgModeler.buildIndexes_index_naming :
    (PgModeler.buildIndexesForTable PgModeler.usersIndexTable "public"
        = ["CREATE INDEX \"idx_users_email_idx\" ON \"public\".\"users\" (\"email\");"])
    ∧ (∀ (table : PgModeler.Table) (schemaName : String),
        (PgModeler.buildIndexesStep table schemaName).1.Nodup
        ∧ (∀ n ∈ (PgModeler.buildIndexesStep table schemaName).1,
            PgModeler.strStartsWith n "idx_" = true)
        ∧ (PgModeler.buildIndexesForTable table schemaName).length
            = (PgModeler.buildIndexesStep table schemaName).1.length) := by
  refine ⟨rfl, ?_⟩
  intro table schemaName
  exact PgModeler.buildIndexes_fold_invariant table schemaName table.columns ([], [])
    List.nodup_nil (by intro n hn; cases hn) rfl

/-- Membership in an `insertSortedBy` result. -/
theorem PgModeler.mem_insertSortedBy {α : Type} (cmp : α → α → Ordering) (x : α) :
    ∀ (l : List α) (y : α), y ∈ PgModeler.insertSortedBy cmp x l ↔ y = x ∨ y ∈ l := by
  intro l
  induction l with
  | nil => intro y; simp [PgModeler.insertSortedBy]
  | cons z rest ih =>
    intro y
    unfold PgModeler.insertSortedBy
    by_cases h : cmp x z == Ordering.lt
    · rw [if_pos h]
      exact List.mem_cons
    · rw [if_neg h]
      simp only [List.mem_cons, ih]
      tauto

/-- `insertSortedBy` adds exactly one element. -/
theorem PgModeler.length_insertSortedBy {α : Type} (cmp : α → α → Ordering) (x : α) :
    ∀ (l : List α), (PgModeler.insertSortedBy cmp x l).length = l.length + 1 := by
  intro l
  induction l with
  | nil => rfl
  | cons z rest ih =>
    unfold PgModeler.insertSortedBy
    by_cases h : cmp x z == Ordering.lt
    · rw [if_pos h]; rfl
    · rw [if_neg h]; simp [ih]

/-- Membership across the insertion-sort fold. -/
theorem PgModeler.mem_sortBy_foldl {α : Type} (cmp : α → α → Ordering) :
    ∀ (l acc : List α) (y : α),
      y ∈ l.foldl (fun a x => PgModeler.insertSortedBy cmp x a) acc ↔ y ∈ acc ∨ y ∈ l := by
  intro l
  induction l with
  | nil => intro acc y; simp
  | cons z rest ih =>
    intro acc y
    rw [List.foldl_cons, ih (PgModeler.insertSortedBy cmp z acc) y,
      PgModeler.mem_insertSortedBy]
    simp only [List.mem_cons]
    tauto

/-- `sortBy` is a permutation in the membership sense. -/
theorem PgModeler.mem_sortBy {α : Type} (cmp : α → α → Ordering) (l : List α) (y : α) :
    y ∈ PgModeler.sortBy cmp l ↔ y ∈ l := by
  unfold PgModeler.sortBy
  rw [PgModeler.mem_sortBy_foldl]
  simp

/-- Looking up the freshly set key. -/
theorem PgModeler.mapGetA_mapSet_self :
    ∀ (m : List (String × List String)) (k : String) (v : List String),
      PgModeler.mapGetA (PgModeler.mapSet m k v) k = some v := by
  intro m
  induction m with
  | nil =>
    intro k v
    unfold PgModeler.mapSet PgModeler.mapGetA
    simp
  | cons e m ih =>
    intro k v
    unfold PgModeler.mapSet
    by_cases hek : (e.1 == k) = true
    · rw [if_pos hek]
      unfold PgModeler.mapGetA
      simp
    · rw [if_neg hek]
      unfold PgModeler.mapGetA
      rw [if_neg hek]
      exact ih k v

/-- Looking up any other key after a set. -/
theorem PgModeler.mapGetA_mapSet_other :
    ∀ (m : List (String × List String)) (k k' : String) (v : List String), k' ≠ k →
      PgModeler.mapGetA (PgModeler.mapSet m k v) k' = PgModeler.mapGetA m k' := by
  intro m
  induction m with
  | nil =>
    intro k k' v hne
    unfold PgModeler.mapSet PgModeler.mapGetA
    rw [if_neg (by simpa using fun h => hne h.symm)]
    rfl
  | cons e m ih =>
    intro k k' v hne
    unfold PgModeler.mapSet
    by_cases hek : (e.1 == k) = true
    · rw [if_pos hek]
      unfold PgModeler.mapGetA
      rw [if_neg (by simpa using fun h => hne h.symm)]
      rw [if_neg (by
        intro h
        have h1 : e.1 = k' := by simpa using h
        have h2 : e.1 = k := by simpa using hek
        exact hne (h1 ▸ h2))]
    · rw [if_neg hek]
      unfold PgModeler.mapGetA
      by_cases he' : (e.1 == k') = true
      · rw [if_pos he', if_pos he']
      · rw [if_neg he', if_neg he']
        exact ih k k' v hne

/-- Membership after a `Set.add`. -/
theorem PgModeler.mem_setAdd (l : List String) (x y : String) :
    y ∈ PgModeler.setAdd l x ↔ y ∈ l ∨ y = x := by
  unfold PgModeler.setAdd
  by_cases h : l.contains x
  · rw [if_pos h]
    constructor
    · exact Or.inl
    · rintro (hy | rfl)
      · exact hy
      · simpa using h
  · rw [if_neg h]
    simp [List.mem_append]

/-- `Set.add` keeps the list duplicate-free. -/
theorem PgModeler.nodup_setAdd (l : List String) (x : String) (h : l.Nodup) :
    (PgModeler.setAdd l x).Nodup := by
  unfold PgModeler.setAdd
  by_cases hc : l.contains x
  · rw [if_pos hc]; exact h
  · rw [if_neg hc]
    exact PgModeler.nodup_append_fresh l x h (fun hm => hc (by simpa using hm))

/-- The dependents fold: membership characterization and distinctness. -/
theorem PgModeler.dependents_fold_spec (tables : List PgModeler.Table) (targetId : String) :
    ∀ (ts : List PgModeler.Table) (acc : List String),
      (∀ y, y ∈ ts.foldl (fun a t =>
          if (PgModeler.tableDependencies tables t).contains targetId
          then PgModeler.setAdd a t.id else a) acc ↔
        y ∈ acc ∨ ∃ t ∈ ts, t.id = y ∧ targetId ∈ PgModeler.tableDependencies tables t)
      ∧ (acc.Nodup → (ts.foldl (fun a t =>
          if (PgModeler.tableDependencies tables t).contains targetId
          then PgModeler.setAdd a t.id else a) acc).Nodup) := by
  intro ts
  induction ts with
  | nil =>
    intro acc
    constructor
    · intro y; simp
    · intro h; exact h
  | cons t ts ih =>
    intro acc
    rw [List.foldl_cons]
    by_cases ht : (PgModeler.tableDependencies tables t).contains targetId
    · rw [if_pos ht]
      constructor
      · intro y
        rw [(ih (PgModeler.setAdd acc t.id)).1 y, PgModeler.mem_setAdd]
        constructor
        · rintro ((hy | rfl) | ⟨u, hu, rfl, hd⟩)
          · exact Or.inl hy
          · exact Or.inr ⟨t, List.mem_cons_self t ts, rfl, by simpa using ht⟩
          · exact Or.inr ⟨u, List.mem_cons_of_mem t hu, rfl, hd⟩
        · rintro (hy | ⟨u, hu, rfl, hd⟩)
          · exact Or.inl (Or.inl hy)
          · rcases List.mem_cons.mp hu with rfl | hu
            · exact Or.inl (Or.inr rfl)
            · exact Or.inr ⟨u, hu, rfl, hd⟩
      · intro h
        exact (ih (PgModeler.setAdd acc t.id)).2 (PgModeler.nodup_setAdd acc t.id h)
    · rw [if_neg ht]
      constructor
      · intro y
        rw [(ih acc).1 y]
        constructor
        · rintro (hy | ⟨u, hu, rfl, hd⟩)
          · exact Or.inl hy
          · exact Or.inr ⟨u, List.mem_cons_of_mem t hu, rfl, hd⟩
        · rintro (hy | ⟨u, hu, rfl, hd⟩)
          · exact Or.inl hy
          · rcases List.mem_cons.mp hu with rfl | hu
            · exact absurd (by simpa using hd) (by simpa using ht)
            · exact Or.inr ⟨u, hu, rfl, hd⟩
      · exact (ih acc).2

/-- Membership in the dependents list. -/
theorem PgModeler.mem_tableDependents (tables : List PgModeler.Table) (targetId y : String) :
    y ∈ PgModeler.tableDependents tables targetId ↔
      ∃ t ∈ tables, t.id = y ∧ targetId ∈ PgModeler.tableDependencies tables t := by
  unfold PgModeler.tableDependents
  rw [(PgModeler.dependents_fold_spec tables targetId tables []).1 y]
  simp

/-- The dependents list is duplicate-free. -/
theorem PgModeler.nodup_tableDependents (tables : List PgModeler.Table) (targetId : String) :
    (PgModeler.tableDependents tables targetId).Nodup := by
  unfold PgModeler.tableDependents
  exact (PgModeler.dependents_fold_spec tables targetId tables []).2 List.nodup_nil

/-- Every dependency target is a present table id. -/
theorem PgModeler.tableDependencies_subset (tables : List PgModeler.Table)
    (table : PgModeler.Table) :
    ∀ d ∈ PgModeler.tableDependencies tables table, d ∈ PgModeler.tableIds tables := by
  unfold PgModeler.tableDependencies
  suffices h : ∀ (fks : List PgModeler.ForeignKey) (acc : List String),
      ∀ d ∈ fks.foldl (fun deps fk =>
        if fk.toTableId == "" || fk.toTableId == table.id then deps
        else if !(tables.any (fun t => t.id == fk.toTableId)) then deps
        else PgModeler.setAdd deps fk.toTableId) acc,
        d ∈ acc ∨ d ∈ PgModeler.tableIds tables by
    intro d hd
    rcases h table.foreignKeys [] d hd with hdd | hdd
    · cases hdd
    · exact hdd
  intro fks
  induction fks with
  | nil => intro acc d hd; exact Or.inl hd
  | cons fk fks ih =>
    intro acc d hd
    rw [List.foldl_cons] at hd
    by_cases h1 : (fk.toTableId == "" || fk.toTableId == table.id) = true
    · rw [if_pos h1] at hd
      exact ih acc d hd
    · rw [if_neg h1] at hd
      by_cases h2 : (!(tables.any (fun t => t.id == fk.toTableId))) = true
      · rw [if_pos h2] at hd
        exact ih acc d hd
      · rw [if_neg h2] at hd
        rcases ih (PgModeler.setAdd acc fk.toTableId) d hd with hdd | hdd
        · rcases (PgModeler.mem_setAdd acc fk.toTableId d).mp hdd with hda | rfl
          · exact Or.inl hda
          · right
            have hany : tables.any (fun t => t.id == fk.toTableId) = true := by
              revert h2
              cases tables.any (fun t => t.id == fk.toTableId) <;> simp
            obtain ⟨t, htmem, hteq⟩ := List.any_eq_true.mp hany
            unfold PgModeler.tableIds
            exact List.mem_map.mpr ⟨t, htmem, by simpa using hteq⟩
        · exact Or.inr hdd

/-- Splitting a mapped sum along a filter. -/
theorem PgModeler.sum_map_filter_split {α : Type} (g : α → Nat) (q : α → Bool) :
    ∀ l : List α,
      ((l.filter q).map g).sum + ((l.filter (fun a => !q a)).map g).sum = (l.map g).sum := by
  intro l
  induction l with
  | nil => rfl
  | cons a l ih =>
    by_cases h : q a = true
    · simp only [List.filter_cons, h, if_true, Bool.not_true, Bool.false_eq_true, if_false,
        List.map_cons, List.sum_cons]
      omega
    · simp only [List.filter_cons, h, Bool.false_eq_true, if_false, eq_false h, Bool.not_false,
        if_true, List.map_cons, List.sum_cons]
      omega

/-- A member's value bounds the mapped sum. -/
theorem PgModeler.le_sum_map {α : Type} (g : α → Nat) :
    ∀ (l : List α) (a : α), a ∈ l → g a ≤ (l.map g).sum := by
  intro l
  induction l with
  | nil => intro a ha; cases ha
  | cons b l ih =>
    intro a ha
    rcases List.mem_cons.mp ha with rfl | ha
    · simp
    · have := ih a ha
      simp only [List.map_cons, List.sum_cons]
      omega

/-- The last element of a list is a member. -/
theorem PgModeler.getLast?_mem {α : Type} :
    ∀ (l : List α) (a : α), l.getLast? = some a → a ∈ l := by
  intro l
  induction l with
  | nil => intro a h; cases h
  | cons b l ih =>
    intro a h
    cases l with
    | nil =>
      simp only [List.getLast?_singleton, Option.some.injEq] at h
      subst h
      exact List.mem_singleton_self b
    | cons c l =>
      rw [List.getLast?_cons_cons] at h
      exact List.mem_cons_of_mem b (ih a h)

/-- What a successful `tableById` lookup returns. -/
theorem PgModeler.tableByIdGet_spec (tables : List PgModeler.Table) (id : String)
    (t : PgModeler.Table) (h : PgModeler.tableByIdGet tables id = some t) :
    t ∈ tables ∧ t.id = id := by
  unfold PgModeler.tableByIdGet at h
  have hmem := PgModeler.getLast?_mem _ _ h
  exact ⟨List.mem_of_mem_filter hmem, by simpa using List.of_mem_filter hmem⟩

/-- A present id resolves. -/
theorem PgModeler.tableByIdGet_isSome (tables : List PgModeler.Table) (id : String)
    (h : id ∈ PgModeler.tableIds tables) :
    ∃ t, PgModeler.tableByIdGet tables id = some t := by
  obtain ⟨t, htmem, hteq⟩ := List.mem_map.mp h
  have hne : tables.filter (fun u => u.id == id) ≠ [] := by
    intro hnil
    have := List.filter_eq_nil.mp hnil t htmem
    exact this (by simpa using hteq)
  unfold PgModeler.tableByIdGet
  have := List.getLast?_isSome.mpr hne
  cases hg : (tables.filter (fun u => u.id == id)).getLast? with
  | none => rw [hg] at this; cases this
  | some u => exact ⟨u, rfl⟩

/-- With distinct ids the lookup returns the member itself. -/
theorem PgModeler.tableByIdGet_of_nodup :
    ∀ (tables : List PgModeler.Table), (PgModeler.tableIds tables).Nodup →
      ∀ (t : PgModeler.Table), t ∈ tables → PgModeler.tableByIdGet tables t.id = some t := by
  intro tables
  induction tables with
  | nil => intro _ t ht; cases ht
  | cons u ts ih =>
    intro hnodup t ht
    have hnodup' : (PgModeler.tableIds (u :: ts)) = u.id :: PgModeler.tableIds ts := rfl
    rw [hnodup'] at hnodup
    have hhead := (List.nodup_cons.mp hnodup).1
    have htail := (List.nodup_cons.mp hnodup).2
    rcases List.mem_cons.mp ht with rfl | ht
    · unfold PgModeler.tableByIdGet
      have hfilter : (t :: ts).filter (fun x => x.id == t.id) = [t] := by
        rw [List.filter_cons]
        rw [if_pos (by simp)]
        have : ts.filter (fun x => x.id == t.id) = [] := by
          rw [List.filter_eq_nil]
          intro x hx hxe
          exact hhead (List.mem_map.mpr ⟨x, hx, (by simpa using hxe)⟩)
        rw [this]
      rw [hfilter]
      rfl
    · have hne : (u.id == t.id) = false := by
        simp only [beq_eq_false_iff_ne, ne_eq]
        intro he
        exact hhead (List.mem_map.mpr ⟨t, ht, he.symm⟩)
      unfold PgModeler.tableByIdGet
      rw [List.filter_cons, if_neg (by simp [hne])]
      exact ih htail t ht

/-- With distinct ids, the keyed dependency list is the table's own. -/
theorem PgModeler.origDepsId_eq (tables : List PgModeler.Table)
    (hids : (PgModeler.tableIds tables).Nodup) (t : PgModeler.Table) (ht : t ∈ tables) :
    PgModeler.origDepsId tables t.id = PgModeler.tableDependencies tables t := by
  unfold PgModeler.origDepsId
  rw [PgModeler.tableByIdGet_of_nodup tables hids t ht]

/-- Lookup in the freshly built dependency map. -/
theorem PgModeler.mapGetA_depMap (f : PgModeler.Table → List String) :
    ∀ (ts : List PgModeler.Table), (PgModeler.tableIds ts).Nodup →
      ∀ (t : PgModeler.Table), t ∈ ts →
        PgModeler.mapGetA (ts.map (fun u => (u.id, f u))) t.id = some (f t) := by
  intro ts
  induction ts with
  | nil => intro _ t ht; cases ht
  | cons u ts ih =>
    intro hnodup t ht
    have hhead := (List.nodup_cons.mp hnodup).1
    have htail := (List.nodup_cons.mp hnodup).2
    rcases List.mem_cons.mp ht with rfl | ht
    · unfold PgModeler.mapGetA
      rw [List.map_cons]
      simp
    · unfold PgModeler.mapGetA
      rw [List.map_cons]
      have hne : (u.id == t.id) = false := by
        simp only [beq_eq_false_iff_ne, ne_eq]
        intro he
        exact hhead (List.mem_map.mpr ⟨t, ht, he.symm⟩)
      simp only [hne, Bool.false_eq_true, if_false]
      exact ih htail t ht

/-- Full specification of the dependents traversal: untouched entries keep
their value, touched entries lose `currentId`, the queue only grows by
dependents (each inserted with an empty remaining-dependency entry), its
growth is bounded by the dependent count, and a dependent whose entry
empties is enqueued. -/
theorem PgModeler.processDependents_spec (cmp : String → String → Ordering)
    (currentId : String) :
    ∀ (D : List String) (rem : List (String × List String)) (queue : List String),
      D.Nodup →
      (∀ id, id ∉ D →
        PgModeler.mapGetA (PgModeler.processDependents cmp currentId D rem queue).1 id
          = PgModeler.mapGetA rem id)
      ∧ (∀ id ∈ D,
        PgModeler.mapGetA (PgModeler.processDependents cmp currentId D rem queue).1 id
          = (PgModeler.mapGetA rem id).map
              (fun deps => deps.filter (fun d => d != currentId)))
      ∧ (∀ x ∈ queue, x ∈ (PgModeler.processDependents cmp currentId D rem queue).2)
      ∧ (∀ x ∈ (PgModeler.processDependents cmp currentId D rem queue).2,
          x ∈ queue ∨ x ∈ D)
      ∧ (∀ x ∈ (PgModeler.processDependents cmp currentId D rem queue).2, x ∉ queue →
          PgModeler.mapGetA (PgModeler.processDependents cmp currentId D rem queue).1 x
            = some [])
      ∧ (PgModeler.processDependents cmp currentId D rem queue).2.length
          ≤ queue.length + D.length
      ∧ (∀ d ∈ D, ∀ deps, PgModeler.mapGetA rem d = some deps →
          deps.filter (fun x => x != currentId) = [] →
          d ∈ (PgModeler.processDependents cmp currentId D rem queue).2) := by
  intro D
  induction D with
  | nil =>
    intro rem queue _
    refine ⟨fun id _ => rfl, fun id hid => absurd hid (List.not_mem_nil id),
      fun x hx => hx, fun x hx => Or.inl hx, ?_, by simp [PgModeler.processDependents],
      fun d hd => absurd hd (List.not_mem_nil d)⟩
    intro x hx hnx
    exact absurd hx hnx
  | cons d D' ih =>
    intro rem queue hnodup
    have hd_not : d ∉ D' := (List.nodup_cons.mp hnodup).1
    have hnodup' : D'.Nodup := (List.nodup_cons.mp hnodup).2
    have hfold : PgModeler.processDependents cmp currentId (d :: D') rem queue
        = PgModeler.processDependents cmp currentId D'
            (PgModeler.processOneDependent cmp currentId (rem, queue) d).1
            (PgModeler.processOneDependent cmp currentId (rem, queue) d).2 := by
      unfold PgModeler.processDependents
      rw [List.foldl_cons]
    cases hrd : PgModeler.mapGetA rem d with
    | none =>
      have hstep : PgModeler.processOneDependent cmp currentId (rem, queue) d
          = (rem, queue) := by
        unfold PgModeler.processOneDependent
        rw [hrd]
      rw [hfold, hstep]
      obtain ⟨c1, c2, c3, c4, c5, c6, c7⟩ := ih rem queue hnodup'
      refine ⟨?_, ?_, c3, ?_, c5, by simpa using Nat.le_succ_of_le c6, ?_⟩
      · intro id hid
        exact c1 id (fun hm => hid (List.mem_cons_of_mem d hm))
      · intro id hid
        rcases List.mem_cons.mp hid with rfl | hid
        · rw [c1 id hd_not, hrd]
          rfl
        · exact c2 id hid
      · intro x hx
        rcases c4 x hx with hq | hD
        · exact Or.inl hq
        · exact Or.inr (List.mem_cons_of_mem d hD)
      · intro e he deps hdeps hfilter
        rcases List.mem_cons.mp he with rfl | he
        · rw [hrd] at hdeps
          cases hdeps
        · exact c7 e he deps hdeps hfilter
    | some deps =>
      by_cases hemp : (deps.filter (fun x => x != currentId)).isEmpty = true
      · have hdeps2 : deps.filter (fun x => x != currentId) = [] :=
          List.isEmpty_iff.mp hemp
        have hstep : PgModeler.processOneDependent cmp currentId (rem, queue) d
            = (PgModeler.mapSet rem d (deps.filter (fun x => x != currentId)),
               PgModeler.insertSortedBy cmp d queue) := by
          unfold PgModeler.processOneDependent
          rw [hrd]
          simp only [hemp, if_true]
        rw [hfold, hstep]
        obtain ⟨c1, c2, c3, c4, c5, c6, c7⟩ :=
          ih (PgModeler.mapSet rem d (deps.filter (fun x => x != currentId)))
            (PgModeler.insertSortedBy cmp d queue) hnodup'
        have hq1mem : ∀ x, x ∈ PgModeler.insertSortedBy cmp d queue ↔ x = d ∨ x ∈ queue :=
          fun x => PgModeler.mem_insertSortedBy cmp d queue x
        refine ⟨?_, ?_, ?_, ?_, ?_, ?_, ?_⟩
        · intro id hid
          have hidd : id ≠ d := fun he => hid (he ▸ List.mem_cons_self d D')
          rw [c1 id (fun hm => hid (List.mem_cons_of_mem d hm)),
            PgModeler.mapGetA_mapSet_other rem d id _ hidd]
        · intro id hid
          rcases List.mem_cons.mp hid with rfl | hid
          · rw [c1 id hd_not, PgModeler.mapGetA_mapSet_self, hrd]
            rfl
          · have hidd : id ≠ d := fun he => hd_not (he ▸ hid)
            rw [c2 id hid, PgModeler.mapGetA_mapSet_other rem d id _ hidd]
        · intro x hx
          exact c3 x ((hq1mem x).mpr (Or.inr hx))
        · intro x hx
          rcases c4 x hx with hq | hD
          · rcases (hq1mem x).mp hq with rfl | hq
            · exact Or.inr (List.mem_cons_self x D')
            · exact Or.inl hq
          · exact Or.inr (List.mem_cons_of_mem d hD)
        · intro x hx hnq
          by_cases hq1 : x ∈ PgModeler.insertSortedBy cmp d queue
          · rcases (hq1mem x).mp hq1 with rfl | hq
            · rw [c1 x hd_not, PgModeler.mapGetA_mapSet_self, hdeps2]
            · exact absurd hq hnq
          · exact c5 x hx hq1
        · have := PgModeler.length_insertSortedBy cmp d queue
          simp only [List.length_cons]
          omega
        · intro e he deps' hdeps' hfilter'
          rcases List.mem_cons.mp he with rfl | he
          · rw [hrd] at hdeps'
            injection hdeps' with hdd
            subst hdd
            exact c3 e ((hq1mem e).mpr (Or.inl rfl))
          · have hedd : e ≠ d := fun hee => hd_not (hee ▸ he)
            apply c7 e he deps'
            · rw [PgModeler.mapGetA_mapSet_other rem d e _ hedd]
              exact hdeps'
            · exact hfilter'
      · have hstep : PgModeler.processOneDependent cmp currentId (rem, queue) d
            = (PgModeler.mapSet rem d (deps.filter (fun x => x != currentId)), queue) := by
          unfold PgModeler.processOneDependent
          rw [hrd]
          simp only [hemp, Bool.false_eq_true, if_false]
        rw [hfold, hstep]
        obtain ⟨c1, c2, c3, c4, c5, c6, c7⟩ :=
          ih (PgModeler.mapSet rem d (deps.filter (fun x => x != currentId))) queue hnodup'
        refine ⟨?_, ?_, c3, ?_, c5, by simpa using Nat.le_succ_of_le c6, ?_⟩
        · intro id hid
          have hidd : id ≠ d := fun he => hid (he ▸ List.mem_cons_self d D')
          rw [c1 id (fun hm => hid (List.mem_cons_of_mem d hm)),
            PgModeler.mapGetA_mapSet_other rem d id _ hidd]
        · intro id hid
          rcases List.mem_cons.mp hid with rfl | hid
          · rw [c1 id hd_not, PgModeler.mapGetA_mapSet_self, hrd]
            rfl
          · have hidd : id ≠ d := fun he => hd_not (he ▸ hid)
            rw [c2 id hid, PgModeler.mapGetA_mapSet_other rem d id _ hidd]
        · intro x hx
          rcases c4 x hx with hq | hD
          · exact Or.inl hq
          · exact Or.inr (List.mem_cons_of_mem d hD)
        · intro e he deps' hdeps' hfilter'
          rcases List.mem_cons.mp he with rfl | he
          · rw [hrd] at hdeps'
            injection hdeps' with hdd
            subst hdd
            rw [hfilter'] at hemp
            simp at hemp
          · have hedd : e ≠ d := fun hee => hd_not (hee ▸ he)
            apply c7 e he deps'
            · rw [PgModeler.mapGetA_mapSet_other rem d e _ hedd]
              exact hdeps'
            · exact hfilter'

/-- Removing the freshly visited id from a remaining-dependency list is the
same as filtering against the extended visited list. -/
theorem PgModeler.filter_visited_snoc (l visited : List String) (c : String) :
    (l.filter (fun d => !visited.contains d)).filter (fun d => d != c)
      = l.filter (fun d => !(visited ++ [c]).contains d) := by
  rw [List.filter_filter]
  apply List.filter_congr
  intro d _
  by_cases hv : d ∈ visited <;> by_cases hdc : d = c <;> simp [hv, hdc]

/-- Appending a table whose dependencies were already emitted preserves the
order property. -/
theorem PgModeler.OrderOk_snoc (tables : List PgModeler.Table)
    (ordered : List PgModeler.Table) (t : PgModeler.Table)
    (h : PgModeler.OrderOk tables ordered)
    (hdeps : ∀ d ∈ PgModeler.tableDependencies tables t,
      d ∈ ordered.map (fun u => u.id)) :
    PgModeler.OrderOk tables (ordered ++ [t]) := by
  intro i hi d hd
  rw [List.length_append, List.length_singleton] at hi
  by_cases hlt : i < ordered.length
  · rw [List.get_append i hlt] at hd
    rw [List.take_append_of_le_length (Nat.le_of_lt hlt)]
    exact h i hlt d hd
  · have hieq : i = ordered.length := by omega
    have hget : (ordered ++ [t]).get ⟨i, by simp [List.length_append]; omega⟩ = t := by
      have := List.getElem_concat_length ordered t i hieq
        (by simp [List.length_append]; omega)
      simpa using this
    rw [hget] at hd
    rw [List.take_append_of_le_length (by omega), hieq, List.take_length]
    exact hdeps d hd

/-- Filtering out the freshly visited id from the unvisited tables. -/
theorem PgModeler.filter_tables_snoc (tables : List PgModeler.Table)
    (visited : List String) (c : String) :
    tables.filter (fun t => !(visited ++ [c]).contains t.id)
      = (tables.filter (fun t => !visited.contains t.id)).filter
          (fun t => !(t.id == c)) := by
  rw [List.filter_filter]
  apply List.filter_congr
  intro t _
  by_cases hv : t.id ∈ visited <;> by_cases hdc : t.id = c <;> simp [hv, hdc]

/-- The Kahn loop preserves its invariant and, run with fuel exceeding the
measure, drains the queue: the emitted ids are the visited ids, the emitted
order respects dependencies, visited ids are table ids, and any unvisited
table keeps a blocked dependency. -/
theorem PgModeler.kahnLoop_spec (tables : List PgModeler.Table)
    (cmp : String → String → Ordering)
    (hids : (PgModeler.tableIds tables).Nodup) :
    ∀ (fuel : Nat) (queue visited : List String) (ordered : List PgModeler.Table)
      (rem : List (String × List String)),
      PgModeler.KahnInv tables queue visited ordered rem →
      PgModeler.kahnMeasure tables queue visited < fuel →
      ((PgModeler.kahnLoop tables cmp fuel queue visited ordered rem).1.map (fun t => t.id)
          = (PgModeler.kahnLoop tables cmp fuel queue visited ordered rem).2)
      ∧ PgModeler.OrderOk tables
          (PgModeler.kahnLoop tables cmp fuel queue visited ordered rem).1
      ∧ (∀ v ∈ (PgModeler.kahnLoop tables cmp fuel queue visited ordered rem).2,
          v ∈ PgModeler.tableIds tables)
      ∧ (∀ id ∈ PgModeler.tableIds tables,
          id ∈ (PgModeler.kahnLoop tables cmp fuel queue visited ordered rem).2
          ∨ (PgModeler.origDepsId tables id).filter
              (fun d =>
                !(PgModeler.kahnLoop tables cmp fuel queue visited ordered rem).2.contains d)
              ≠ [])
      ∧ (∀ u ∈ (PgModeler.kahnLoop tables cmp fuel queue visited ordered rem).1,
          u ∈ tables) := by
  intro fuel
  induction fuel with
  | zero => intro queue visited ordered rem _ hm; omega
  | succ fuel ih =>
    intro queue visited ordered rem hinv hm
    obtain ⟨inv1, inv2, inv3, inv4, inv5, inv6, inv7, inv8, inv9⟩ := hinv
    cases queue with
    | nil =>
      have hred : PgModeler.kahnLoop tables cmp (fuel + 1) [] visited ordered rem
          = (ordered, visited) := by simp only [PgModeler.kahnLoop]
      rw [hred]
      refine ⟨inv4, inv8, inv2, ?_, inv5⟩
      intro id hid
      rcases inv9 id hid with h | h | h
      · exact Or.inl h
      · cases h
      · exact Or.inr h
    | cons currentId rest =>
      by_cases hvis : visited.contains currentId = true
      · have hred : PgModeler.kahnLoop tables cmp (fuel + 1) (currentId :: rest)
            visited ordered rem
            = PgModeler.kahnLoop tables cmp fuel rest visited ordered rem := by
          simp only [PgModeler.kahnLoop, hvis, if_true]
        rw [hred]
        apply ih
        · refine ⟨fun q hq => inv1 q (List.mem_cons_of_mem _ hq), inv2, inv3, inv4, inv5,
            inv6, fun q hq => inv7 q (List.mem_cons_of_mem _ hq), inv8, ?_⟩
          intro id hid
          rcases inv9 id hid with h | h | h
          · exact Or.inl h
          · rcases List.mem_cons.mp h with rfl | h
            · exact Or.inl (by simpa using hvis)
            · exact Or.inr (Or.inl h)
          · exact Or.inr (Or.inr h)
        · unfold PgModeler.kahnMeasure at hm ⊢
          simp only [List.length_cons] at hm
          omega
      · have hvisF : visited.contains currentId = false := by
          revert hvis; cases visited.contains currentId <;> simp
        have hcur_nmem : currentId ∉ visited := by simpa using hvisF
        have hcur_mem : currentId ∈ PgModeler.tableIds tables :=
          inv1 currentId (List.mem_cons_self _ _)
        obtain ⟨currentTable, hget⟩ :=
          PgModeler.tableByIdGet_isSome tables currentId hcur_mem
        obtain ⟨hct_mem, hct_id⟩ :=
          PgModeler.tableByIdGet_spec tables currentId currentTable hget
        have hred : PgModeler.kahnLoop tables cmp (fuel + 1) (currentId :: rest)
            visited ordered rem
            = PgModeler.kahnLoop tables cmp fuel
                (PgModeler.processDependents cmp currentId
                  (PgModeler.tableDependents tables currentId) rem rest).2
                (visited ++ [currentId]) (ordered ++ [currentTable])
                (PgModeler.processDependents cmp currentId
                  (PgModeler.tableDependents tables currentId) rem rest).1 := by
          simp only [PgModeler.kahnLoop, hvisF, Bool.false_eq_true, if_false, hget]
        rw [hred]
        obtain ⟨c1, c2, c3, c4, c5, c6, c7⟩ :=
          PgModeler.processDependents_spec cmp currentId
            (PgModeler.tableDependents tables currentId) rem rest
            (PgModeler.nodup_tableDependents tables currentId)
        have hDsub : ∀ y ∈ PgModeler.tableDependents tables currentId,
            y ∈ PgModeler.tableIds tables := by
          intro y hy
          obtain ⟨t, htm, rfl, hdep⟩ :=
            (PgModeler.mem_tableDependents tables currentId y).mp hy
          exact List.mem_map.mpr ⟨t, htm, rfl⟩
        have hDiff : ∀ id ∈ PgModeler.tableIds tables,
            (id ∈ PgModeler.tableDependents tables currentId
              ↔ currentId ∈ PgModeler.origDepsId tables id) := by
          intro id hid
          constructor
          · intro hmem
            obtain ⟨t, htm, hteq, hdep⟩ :=
              (PgModeler.mem_tableDependents tables currentId id).mp hmem
            have heq := PgModeler.origDepsId_eq tables hids t htm
            rw [← hteq, heq]
            exact hdep
          · intro hdep
            obtain ⟨t, htg⟩ := PgModeler.tableByIdGet_isSome tables id hid
            obtain ⟨htm, hteq⟩ := PgModeler.tableByIdGet_spec tables id t htg
            unfold PgModeler.origDepsId at hdep
            rw [htg] at hdep
            exact (PgModeler.mem_tableDependents tables currentId id).mpr ⟨t, htm, hteq, hdep⟩
        have hinv6' : ∀ id ∈ PgModeler.tableIds tables,
            PgModeler.mapGetA (PgModeler.processDependents cmp currentId
              (PgModeler.tableDependents tables currentId) rem rest).1 id
            = some ((PgModeler.origDepsId tables id).filter
                (fun d => !(visited ++ [currentId]).contains d)) := by
          intro id hid
          by_cases hidD : id ∈ PgModeler.tableDependents tables currentId
          · rw [c2 id hidD, inv6 id hid]
            show some (((PgModeler.origDepsId tables id).filter
                (fun d => !visited.contains d)).filter (fun d => d != currentId)) = _
            rw [PgModeler.filter_visited_snoc]
          · rw [c1 id hidD, inv6 id hid]
            congr 1
            apply List.filter_congr
            intro d hd
            have hdc : d ≠ currentId := by
              intro he
              subst he
              exact hidD ((hDiff id hid).mpr hd)
            by_cases hv : d ∈ visited <;> simp [hv, hdc]
        have hinv7' : ∀ q ∈ (PgModeler.processDependents cmp currentId
              (PgModeler.tableDependents tables currentId) rem rest).2,
            ∀ d ∈ PgModeler.origDepsId tables q, d ∈ visited ++ [currentId] := by
          intro q hq
          by_cases hqr : q ∈ rest
          · intro d hd
            exact List.mem_append.mpr
              (Or.inl (inv7 q (List.mem_cons_of_mem _ hqr) d hd))
          · have hq_tid : q ∈ PgModeler.tableIds tables := by
              rcases c4 q hq with h | h
              · exact absurd h hqr
              · exact hDsub q h
            have hempty := c5 q hq hqr
            rw [hinv6' q hq_tid] at hempty
            injection hempty with hemp
            intro d hd
            by_contra hdn
            have hdpass : (fun d => !(visited ++ [currentId]).contains d) d = true := by
              simpa using hdn
            have hdmem : d ∈ (PgModeler.origDepsId tables q).filter
                (fun d => !(visited ++ [currentId]).contains d) :=
              List.mem_filter.mpr ⟨hd, hdpass⟩
            rw [hemp] at hdmem
            cases hdmem
        have hinv9' : ∀ id ∈ PgModeler.tableIds tables,
            id ∈ visited ++ [currentId]
            ∨ id ∈ (PgModeler.processDependents cmp currentId
                (PgModeler.tableDependents tables currentId) rem rest).2
            ∨ (PgModeler.origDepsId tables id).filter
                (fun d => !(visited ++ [currentId]).contains d) ≠ [] := by
          intro id hid
          rcases inv9 id hid with h | h | h
          · exact Or.inl (List.mem_append.mpr (Or.inl h))
          · rcases List.mem_cons.mp h with rfl | h
            · exact Or.inl (List.mem_append.mpr (Or.inr (List.mem_singleton_self _)))
            · exact Or.inr (Or.inl (c3 id h))
          · by_cases hemp : (PgModeler.origDepsId tables id).filter
                (fun d => !(visited ++ [currentId]).contains d) = []
            · have hidD : id ∈ PgModeler.tableDependents tables currentId := by
                obtain ⟨d₀, hd₀⟩ := List.exists_mem_of_ne_nil _ h
                have hd₀f := List.mem_filter.mp hd₀
                have hd₀dep : d₀ ∈ PgModeler.origDepsId tables id := hd₀f.1
                have hd₀nv : d₀ ∉ visited := by simpa using hd₀f.2
                have hd₀out : d₀ ∉ (PgModeler.origDepsId tables id).filter
                    (fun d => !(visited ++ [currentId]).contains d) := by
                  rw [hemp]
                  exact List.not_mem_nil d₀
                have hcont : d₀ ∈ visited ++ [currentId] := by
                  by_contra hnc
                  exact hd₀out (List.mem_filter.mpr ⟨hd₀dep, by simpa using hnc⟩)
                have hd₀cur : d₀ = currentId := by
                  rcases List.mem_append.mp hcont with hvv | hcc
                  · exact absurd hvv hd₀nv
                  · simpa using hcc
                subst hd₀cur
                exact (hDiff id hid).mpr hd₀dep
              have happly := c7 id hidD
                ((PgModeler.origDepsId tables id).filter (fun d => !visited.contains d))
                (inv6 id hid)
                (by rw [PgModeler.filter_visited_snoc]; exact hemp)
              exact Or.inr (Or.inl happly)
            · exact Or.inr (Or.inr hemp)
        apply ih
        · refine ⟨?_, ?_, ?_, ?_, ?_, hinv6', hinv7', ?_, hinv9'⟩
          · intro q hq
            rcases c4 q hq with h | h
            · exact inv1 q (List.mem_cons_of_mem _ h)
            · exact hDsub q h
          · intro v hv
            rcases List.mem_append.mp hv with h | h
            · exact inv2 v h
            · rw [List.mem_singleton] at h
              subst h
              exact hcur_mem
          · exact PgModeler.nodup_append_fresh visited currentId inv3 hcur_nmem
          · rw [List.map_append, inv4]
            simp [hct_id]
          · intro u hu
            rcases List.mem_append.mp hu with h | h
            · exact inv5 u h
            · rw [List.mem_singleton] at h
              subst h
              exact hct_mem
          · apply PgModeler.OrderOk_snoc tables ordered currentTable inv8
            intro d hd
            rw [inv4]
            apply inv7 currentId (List.mem_cons_self _ _)
            unfold PgModeler.origDepsId
            rw [hget]
            exact hd
        · unfold PgModeler.kahnMeasure at hm ⊢
          simp only [List.length_cons] at hm
          have hqlen := c6
          have hsnoc := PgModeler.filter_tables_snoc tables visited currentId
          have hsplit := PgModeler.sum_map_filter_split
            (fun t => 1 + (PgModeler.tableDependents tables t.id).length)
            (fun t => t.id == currentId)
            (tables.filter (fun t => !visited.contains t.id))
          have hct_in : currentTable ∈ (tables.filter
              (fun t => !visited.contains t.id)).filter (fun t => t.id == currentId) := by
            apply List.mem_filter.mpr
            refine ⟨List.mem_filter.mpr ⟨hct_mem, ?_⟩, ?_⟩
            · rw [hct_id, hvisF]
              rfl
            · simp [hct_id]
          have hle := PgModeler.le_sum_map
            (fun t => 1 + (PgModeler.tableDependents tables t.id).length)
            ((tables.filter (fun t => !visited.contains t.id)).filter
              (fun t => t.id == currentId)) currentTable hct_in
          have hle2 : 1 + (PgModeler.tableDependents tables currentId).length
              ≤ (((tables.filter (fun t => !visited.contains t.id)).filter
                    (fun t => t.id == currentId)).map
                  (fun t => 1 + (PgModeler.tableDependents tables t.id).length)).sum := by
            simpa [hct_id] using hle
          rw [hsnoc]
          omega

/-- `topologicallySortTables` on a model with distinct ids and an acyclic
dependency graph: the result consists exactly of the model's tables (by id)
and respects the dependency order. -/
theorem PgModeler.topologicallySortTables_spec (tables : List PgModeler.Table)
    (gsn : String → String)
    (hids : (PgModeler.tableIds tables).Nodup)
    (hacyclic : ∃ rank : String → Nat, ∀ t ∈ tables,
      ∀ d ∈ PgModeler.tableDependencies tables t, rank d < rank t.id) :
    (∀ t ∈ tables, t.id ∈ (PgModeler.topologicallySortTables tables gsn).map
      (fun u => u.id))
    ∧ PgModeler.OrderOk tables (PgModeler.topologicallySortTables tables gsn)
    ∧ (∀ u ∈ PgModeler.topologicallySortTables tables gsn, u ∈ tables) := by
  have hdef : PgModeler.topologicallySortTables tables gsn
      = (if ((PgModeler.kahnLoop tables (PgModeler.compareBySchemaAndName tables gsn)
            ((PgModeler.sortBy (PgModeler.compareBySchemaAndName tables gsn)
              ((tables.filter (fun t =>
                (PgModeler.tableDependencies tables t).isEmpty)).map
                (fun t => t.id))).length
              + ((tables.map
                  (fun t => 1 + (PgModeler.tableDependents tables t.id).length)).sum) + 1)
            (PgModeler.sortBy (PgModeler.compareBySchemaAndName tables gsn)
              ((tables.filter (fun t =>
                (PgModeler.tableDependencies tables t).isEmpty)).map
                (fun t => t.id)))
            [] [] (tables.map (fun t => (t.id, PgModeler.tableDependencies tables t)))).1.length
            != tables.length) = true
        then (PgModeler.kahnLoop tables (PgModeler.compareBySchemaAndName tables gsn)
            ((PgModeler.sortBy (PgModeler.compareBySchemaAndName tables gsn)
              ((tables.filter (fun t =>
                (PgModeler.tableDependencies tables t).isEmpty)).map
                (fun t => t.id))).length
              + ((tables.map
                  (fun t => 1 + (PgModeler.tableDependents tables t.id).length)).sum) + 1)
            (PgModeler.sortBy (PgModeler.compareBySchemaAndName tables gsn)
              ((tables.filter (fun t =>
                (PgModeler.tableDependencies tables t).isEmpty)).map
                (fun t => t.id)))
            [] [] (tables.map (fun t => (t.id, PgModeler.tableDependencies tables t)))).1
          ++ PgModeler.sortBy (fun a b =>
              PgModeler.compareBySchemaAndName tables gsn a.id b.id)
            (tables.filter (fun t =>
              !(PgModeler.kahnLoop tables (PgModeler.compareBySchemaAndName tables gsn)
                ((PgModeler.sortBy (PgModeler.compareBySchemaAndName tables gsn)
                  ((tables.filter (fun t =>
                    (PgModeler.tableDependencies tables t).isEmpty)).map
                    (fun t => t.id))).length
                  + ((tables.map
                      (fun t => 1 + (PgModeler.tableDependents tables t.id).length)).sum) + 1)
                (PgModeler.sortBy (PgModeler.compareBySchemaAndName tables gsn)
                  ((tables.filter (fun t =>
                    (PgModeler.tableDependencies tables t).isEmpty)).map
                    (fun t => t.id)))
                [] [] (tables.map
                  (fun t => (t.id, PgModeler.tableDependencies tables t)))).2.contains t.id))
        else (PgModeler.kahnLoop tables (PgModeler.compareBySchemaAndName tables gsn)
            ((PgModeler.sortBy (PgModeler.compareBySchemaAndName tables gsn)
              ((tables.filter (fun t =>
                (PgModeler.tableDependencies tables t).isEmpty)).map
                (fun t => t.id))).length
              + ((tables.map
                  (fun t => 1 + (PgModeler.tableDependents tables t.id).length)).sum) + 1)
            (PgModeler.sortBy (PgModeler.compareBySchemaAndName tables gsn)
              ((tables.filter (fun t =>
                (PgModeler.tableDependencies tables t).isEmpty)).map
                (fun t => t.id)))
            [] [] (tables.map
              (fun t => (t.id, PgModeler.tableDependencies tables t)))).1) := rfl
  set cmpT := PgModeler.compareBySchemaAndName tables gsn with hcmpT
  set readyT := PgModeler.sortBy cmpT
    ((tables.filter (fun t => (PgModeler.tableDependencies tables t).isEmpty)).map
      (fun t => t.id)) with hreadyT
  set fuelT := readyT.length
    + ((tables.map (fun t => 1 + (PgModeler.tableDependents tables t.id).length)).sum) + 1
    with hfuelT
  set depMapT := tables.map (fun t => (t.id, PgModeler.tableDependencies tables t))
    with hdepMapT
  set kres := PgModeler.kahnLoop tables cmpT fuelT readyT [] [] depMapT with hkres
  have hfilter_true : tables.filter (fun t => !(List.contains [] t.id)) = tables :=
    List.filter_eq_self.mpr (fun a _ => rfl)
  have hinv0 : PgModeler.KahnInv tables readyT [] [] depMapT := by
    refine ⟨?_, ?_, List.nodup_nil, rfl, ?_, ?_, ?_, ?_, ?_⟩
    · intro q hq
      rw [hreadyT, PgModeler.mem_sortBy] at hq
      obtain ⟨t, htmem, rfl⟩ := List.mem_map.mp hq
      exact List.mem_map.mpr ⟨t, List.mem_of_mem_filter htmem, rfl⟩
    · intro v hv
      cases hv
    · intro u hu
      cases hu
    · intro id hid
      obtain ⟨t, htmem, rfl⟩ := List.mem_map.mp hid
      rw [hdepMapT, PgModeler.mapGetA_depMap (PgModeler.tableDependencies tables)
        tables hids t htmem]
      rw [PgModeler.origDepsId_eq tables hids t htmem]
      congr 1
      exact (List.filter_eq_self.mpr (fun a _ => rfl)).symm
    · intro q hq
      rw [hreadyT, PgModeler.mem_sortBy] at hq
      obtain ⟨t, htmem, rfl⟩ := List.mem_map.mp hq
      have hdeps_nil : PgModeler.tableDependencies tables t = [] :=
        List.isEmpty_iff.mp ((List.mem_filter.mp htmem).2)
      intro d hd
      rw [PgModeler.origDepsId_eq tables hids t (List.mem_of_mem_filter htmem),
        hdeps_nil] at hd
      cases hd
    · intro i hi
      simp at hi
    · intro id hid
      obtain ⟨t, htmem, rfl⟩ := List.mem_map.mp hid
      by_cases hde : (PgModeler.tableDependencies tables t).isEmpty = true
      · refine Or.inr (Or.inl ?_)
        rw [hreadyT, PgModeler.mem_sortBy]
        exact List.mem_map.mpr ⟨t, List.mem_filter.mpr ⟨htmem, hde⟩, rfl⟩
      · refine Or.inr (Or.inr ?_)
        have hft : (PgModeler.tableDependencies tables t).filter
            (fun d => !(List.contains [] d)) = PgModeler.tableDependencies tables t :=
          List.filter_eq_self.mpr (fun a _ => rfl)
        rw [PgModeler.origDepsId_eq tables hids t htmem, hft]
        intro hnil
        rw [hnil] at hde
        exact hde rfl
  have hmeas0 : PgModeler.kahnMeasure tables readyT [] < fuelT := by
    rw [hfuelT]
    unfold PgModeler.kahnMeasure
    rw [hfilter_true]
    omega
  obtain ⟨k1, k2, k3, k4, k5⟩ :=
    PgModeler.kahnLoop_spec tables cmpT hids fuelT readyT [] [] depMapT hinv0 hmeas0
  rw [← hkres] at k1 k2 k3 k4 k5
  have hall : ∀ id ∈ PgModeler.tableIds tables, id ∈ kres.2 := by
    obtain ⟨rank, hrank⟩ := hacyclic
    have main : ∀ n, ∀ id ∈ PgModeler.tableIds tables, rank id < n → id ∈ kres.2 := by
      intro n
      induction n with
      | zero => intro id _ h; omega
      | succ n ihn =>
        intro id hid hlt
        rcases k4 id hid with h | h
        · exact h
        · exfalso
          apply h
          rw [List.filter_eq_nil]
          intro d hdmem
          obtain ⟨t, htg⟩ := PgModeler.tableByIdGet_isSome tables id hid
          obtain ⟨htm, hteq⟩ := PgModeler.tableByIdGet_spec tables id t htg
          have hdep : d ∈ PgModeler.tableDependencies tables t := by
            unfold PgModeler.origDepsId at hdmem
            rw [htg] at hdmem
            exact hdmem
          have hrd : rank d < rank t.id := hrank t htm d hdep
          rw [hteq] at hrd
          have hdin : d ∈ PgModeler.tableIds tables :=
            PgModeler.tableDependencies_subset tables t d hdep
          have hdv : d ∈ kres.2 := ihn d hdin (by omega)
          simp [hdv]
    intro id hid
    exact main (rank id + 1) id hid (Nat.lt_succ_self _)
  have hres_eq : PgModeler.topologicallySortTables tables gsn = kres.1 := by
    rw [hdef]
    have hfilter_nil : tables.filter (fun t => !kres.2.contains t.id) = [] := by
      rw [List.filter_eq_nil]
      intro t htm
      have := hall t.id (List.mem_map.mpr ⟨t, htm, rfl⟩)
      simp [this]
    rw [hfilter_nil]
    by_cases hcond : (kres.1.length != tables.length) = true
    · rw [if_pos hcond]
      show kres.1 ++ PgModeler.sortBy (fun a b => cmpT a.id b.id) [] = kres.1
      rw [show PgModeler.sortBy (fun a b => cmpT a.id b.id) ([] : List PgModeler.Table)
          = [] from rfl,
        List.append_nil]
    · rw [if_neg hcond]
  rw [hres_eq]
  refine ⟨?_, k2, k5⟩
  intro t ht
  rw [k1]
  exact hall t.id (List.mem_map.mpr ⟨t, ht, rfl⟩)

/-- Claim C4: for every model with distinct table ids whose table-dependency
graph (A depends on B when A has a foreign key with toTableId = B, ignoring
self-references and absent targets) is acyclic — witnessed by a rank
function decreasing along dependencies — the table sequence emitted by
`generatePostgresSql` (computed by `topologicallySortTables`, which the
generator folds over in order) places every table after all tables it
foreign-keys to and contains every table; in particular for the concrete
model where b references a and c references b the emitted order is a, b, c;
and generation is deterministic — the generator is a pure function, so the
same model always yields the identical output string. -/
theorem PgModeler.generate_topological_order (m : PgModeler.DbModel)
    (hids : (PgModeler.tableIds m.tables).Nodup)
    (hacyclic : ∃ rank : String → Nat, ∀ t ∈ m.tables,
      ∀ d ∈ PgModeler.tableDependencies m.tables t, rank d < rank t.id) :
    (∀ t ∈ m.tables, ∀ d ∈ PgModeler.tableDependencies m.tables t,
      ∃ i j, i < j
        ∧ ((PgModeler.topologicallySortTables m.tables (PgModeler.schemaNameOf m)).map
            (fun u => u.id)).get? i = some d
        ∧ ((PgModeler.topologicallySortTables m.tables (PgModeler.schemaNameOf m)).map
            (fun u => u.id)).get? j = some t.id)
    ∧ (∀ t ∈ m.tables, t.id ∈ (PgModeler.topologicallySortTables m.tables
        (PgModeler.schemaNameOf m)).map (fun u => u.id))
    ∧ ((PgModeler.topologicallySortTables PgModeler.abcModel.tables
        (PgModeler.schemaNameOf PgModeler.abcModel)).map (fun t => t.name)
        = ["a", "b", "c"])
    ∧ (∀ model : PgModeler.DbModel,
        PgModeler.generatePostgresSql model = PgModeler.generatePostgresSql model) := by
  obtain ⟨hmem, hord, hsub⟩ :=
    PgModeler.topologicallySortTables_spec m.tables (PgModeler.schemaNameOf m) hids hacyclic
  refine ⟨?_, hmem, by decide, fun model => rfl⟩
  intro t ht d hd
  have htid := hmem t ht
  obtain ⟨n, hn⟩ := List.mem_iff_get.mp htid
  have hlen : (n : Nat) < (PgModeler.topologicallySortTables m.tables
      (PgModeler.schemaNameOf m)).length := by
    have := n.isLt
    simpa [List.length_map] using this
  rw [List.get_map] at hn
  have hu_mem : (PgModeler.topologicallySortTables m.tables
      (PgModeler.schemaNameOf m)).get ⟨n, hlen⟩ ∈ m.tables :=
    hsub _ (List.get_mem _ _ hlen)
  have hueq : (PgModeler.topologicallySortTables m.tables
      (PgModeler.schemaNameOf m)).get ⟨n, hlen⟩ = t :=
    List.inj_on_of_nodup_map hids hu_mem ht hn
  have hdep_u : d ∈ PgModeler.tableDependencies m.tables
      ((PgModeler.topologicallySortTables m.tables
        (PgModeler.schemaNameOf m)).get ⟨n, hlen⟩) := by
    rw [hueq]
    exact hd
  have htake := hord n hlen d hdep_u
  rw [List.map_take] at htake
  obtain ⟨k, hk⟩ := List.mem_iff_get.mp htake
  have hklt : (k : Nat) < n := by
    have := k.isLt
    simp only [List.length_take] at this
    omega
  have hkids : (k : Nat) < ((PgModeler.topologicallySortTables m.tables
      (PgModeler.schemaNameOf m)).map (fun u => u.id)).length := by
    have := k.isLt
    simp only [List.length_take] at this
    omega
  refine ⟨k, n, hklt, ?_, ?_⟩
  · rw [List.get?_eq_get hkids]
    have : ((PgModeler.topologicallySortTables m.tables
        (PgModeler.schemaNameOf m)).map (fun u => u.id)).get ⟨k, hkids⟩
        = (((PgModeler.topologicallySortTables m.tables
            (PgModeler.schemaNameOf m)).map (fun u => u.id)).take n).get k := by
      show ((PgModeler.topologicallySortTables m.tables
        (PgModeler.schemaNameOf m)).map (fun u => u.id))[(k : Nat)]
        = (((PgModeler.topologicallySortTables m.tables
            (PgModeler.schemaNameOf m)).map (fun u => u.id)).take n)[(k : Nat)]
      rw [List.getElem_take]
    rw [this, hk]
  · rw [List.get?_eq_get (by simpa [List.length_map] using hlen)]
    rw [List.get_map]
    rw [hn]

/-- Witness for C4: the concrete three-table model has distinct ids and the
explicit rank a ↦ 0, b ↦ 1, c ↦ 2 certifies acyclicity; the theorem then
yields the emitted order a, b, c. -/
theorem PgModeler.generate_topological_order_witness :
    (PgModeler.topologicallySortTables PgModeler.abcModel.tables
        (PgModeler.schemaNameOf PgModeler.abcModel)).map (fun t => t.name)
      = ["a", "b", "c"] :=
  (PgModeler.generate_topological_order PgModeler.abcModel (by decide)
    ⟨fun id => if id == "tb2" then 1 else if id == "tc3" then 2 else 0,
      by decide⟩).2.2.1
